import Mathlib

/-!
# Travelers world generation: shallow embedding

This file embeds the world-generation core of the Travelers repository
(`src/world/wfc.rs`, `src/world/stitcher.rs`, `src/world/mod.rs`,
`src/world/schematic.rs`) in Lean 4 and settles the frozen claims about it.

Modelling conventions:

* Tile identifiers are `u8` in the source; we use `Nat` (their values).
  The interior generator stores cells as `Option<(u8, u8)>` whose second
  component is the constant `1` (a variant index); we keep the pair.
* Rust `HashSet<u8>` / `HashMap` iteration order is unspecified (each
  instance has a process-random `RandomState`).  A hash container's key
  sequence is therefore an explicit `List Nat` parameter (`dom0`, `keys`):
  the element order models the container's iteration order.  `retain`
  keeps the surviving elements in place, so it is `List.filter`.
* Every random draw in the interior generator re-seeds `StdRng` from the
  chunk hash and asks for one value in `0..len`, so it is a fixed function
  of the bound; we model it as a parameter `draw : Nat → Nat` (the same
  function for every draw of a run, which encodes the re-seeding).  The
  stitcher draws from the unseeded `thread_rng`, modelled as a separate
  parameter `drawE`.  The source casts `len` to `u8` before `gen_range`,
  hence the `% 256`.
* `DefaultHasher` is deterministic (fixed SipHash keys); the claims only
  depend on which integer gets hashed, so the hasher itself is an
  arbitrary function parameter `H : Int → Nat`.
* Tile `Transform`s hold `f32` translations, but every value the world
  code stores in them is a small integer plus `TILE_SIZE/2`, on which the
  `f32` arithmetic performed (`- 16.0`, `± 32`, `as i64`) is exact; we
  model translations as `Int × Int`.
-/

namespace Travelers

/-- `CHUNK_TILE_LENGTH` from `src/world/mod.rs` (side length of a chunk's
interior grid, in tiles). -/
def CHUNK_TILE_LENGTH : Nat := 8

/-- `TILE_SIZE` from `src/world/mod.rs` (world units per tile). -/
def TILE_SIZE : Int := 32

/-- `CHUNK_SIZE = CHUNK_TILE_LENGTH * TILE_SIZE` from `src/world/mod.rs`. -/
def CHUNK_SIZE : Int := (CHUNK_TILE_LENGTH : Int) * TILE_SIZE

/-- `RENDER_DISTANCE` from `src/world/mod.rs`. -/
def RENDER_DISTANCE : Nat := 2

/-- `TileSchematic` from `src/world/schematic.rs`: the four directional
allow-lists (serde keys `"0"`..`"3"`) and the carried-but-unused `weight`.
The display metadata (`name`, `sheet`) is never read by generation and is
omitted. -/
structure TileSchematic where
  weight : Nat
  north : List Nat
  east : List Nat
  south : List Nat
  west : List Nat
deriving Repr, DecidableEq

/-- `SchematicAsset` from `src/world/schematic.rs`: the fallback identifier
`not_found` plus the id-keyed tile map (an association list; keys unique). -/
structure SchematicAsset where
  not_found : Nat
  tiles : List (Nat × TileSchematic)
deriving Repr, DecidableEq

/-- The tile map lookup `schematic.tiles[&id]`.  The source indexes the
`HashMap` directly (a panic on a missing id); all ids looked up by the
claims are present, and we return a vacuous entry for an absent id. -/
def lookupTile (s : SchematicAsset) (id : Nat) : TileSchematic :=
  match s.tiles.find? (fun p => p.1 == id) with
  | some p => p.2
  | none => ⟨0, [], [], [], []⟩

/-- `constraint.retain(|&t| allowed.contains(&t))`: keep the domain elements
that appear in the allow-list, preserving their iteration order. -/
def retainAllowed (allowed dom : List Nat) : List Nat :=
  dom.filter (fun t => allowed.contains t)

/-- Read entry `g[x][y]` of a `Vec<Vec<_>>` grid, with a default for
out-of-range indices (the source never indexes out of range). -/
def get2 (g : List (List α)) (x y : Nat) (d : α) : α :=
  (g.getD x []).getD y d

/-- Write entry `g[x][y]` of a `Vec<Vec<_>>` grid. -/
def set2 (g : List (List α)) (x y : Nat) (v : α) : List (List α) :=
  g.set x ((g.getD x []).set y v)

/-- Build an `CHUNK_TILE_LENGTH × CHUNK_TILE_LENGTH` grid from a function
(used for the `for x in 0..L { for y in 0..L { … } }` rebuild loops). -/
def mapGrid (f : Nat → Nat → α) : List (List α) :=
  (List.range CHUNK_TILE_LENGTH).map fun x =>
    (List.range CHUNK_TILE_LENGTH).map fun y => f x y

/-- Interior tile grid: `tiles: Vec<Vec<Option<(u8, u8)>>>` from
`WaveFunctionCollapse` (`src/world/wfc.rs`). -/
abbrev TGrid := List (List (Option (Nat × Nat)))

/-- Interior constraint map: `constraint_map: Vec<Vec<HashSet<u8>>>` from
`WaveFunctionCollapse` (each cell's domain, in iteration order). -/
abbrev CGrid := List (List (List Nat))

/-- An `if let Some(nb) = tiles[..][..] { retain(dir-list of nb) }` step of
`WaveFunctionCollapse::update_constraint_map` (the scrutinee already
carries the `x - 1 >= 0`-style bound guard). -/
def neighborRetain (s : SchematicAsset) (o : Option (Nat × Nat))
    (dir : TileSchematic → List Nat) (dom : List Nat) : List Nat :=
  match o with
  | some nb => retainAllowed (dir (lookupTile s nb.1)) dom
  | none => dom

/-- One cell of `WaveFunctionCollapse::update_constraint_map`
(`src/world/wfc.rs` lines 68–115): clear the domain of a collapsed cell;
otherwise retain against the allow-list of each collapsed 4-neighbor, in
source order — west neighbor's `east` list first (the innermost
application), then south neighbor's `north`, east neighbor's `west`,
north neighbor's `south`. -/
def updateCell (s : SchematicAsset) (tiles : TGrid) (x y : Nat)
    (dom : List Nat) : List Nat :=
  if (get2 tiles x y none).isSome then []
  else
    neighborRetain s (if y + 1 < CHUNK_TILE_LENGTH then get2 tiles x (y + 1) none else none)
      (fun ts => ts.south) <|
    neighborRetain s (if x + 1 < CHUNK_TILE_LENGTH then get2 tiles (x + 1) y none else none)
      (fun ts => ts.west) <|
    neighborRetain s (if 1 ≤ y then get2 tiles x (y - 1) none else none)
      (fun ts => ts.north) <|
    neighborRetain s (if 1 ≤ x then get2 tiles (x - 1) y none else none)
      (fun ts => ts.east) dom

/-- `WaveFunctionCollapse::update_constraint_map`: one full propagation pass
over all cells. -/
def updateConstraintMap (s : SchematicAsset) (tiles : TGrid) (cmap : CGrid) : CGrid :=
  mapGrid fun x y => updateCell s tiles x y (get2 cmap x y [])

/-- The accumulator loop shared by `WaveFunctionCollapse::lowest_entropy` and
`Stitcher::lowest_entropy`: scan the indices in order, keeping the first
index whose (nonzero) domain size is strictly below the running minimum
(`n > 0 && (lowest == 0 || n < lowest)`). -/
def lowestFold (f : ι → Nat) (l : List ι) : Option ι × Nat :=
  l.foldl
    (fun acc i => if 0 < f i ∧ (acc.2 = 0 ∨ f i < acc.2) then (some i, f i) else acc)
    (none, 0)

/-- The raster scan order of the interior loops: `x` outer, `y` inner,
both `0..CHUNK_TILE_LENGTH`. -/
def rasterPairs : List (Nat × Nat) :=
  (List.range CHUNK_TILE_LENGTH).flatMap fun x =>
    (List.range CHUNK_TILE_LENGTH).map fun y => (x, y)

/-- `WaveFunctionCollapse::lowest_entropy` (`src/world/wfc.rs` lines
118–143). -/
def lowestEntropy (cmap : CGrid) : Option (Nat × Nat) :=
  (lowestFold (fun p => (get2 cmap p.1 p.2 []).length) rasterPairs).1

/-- `WaveFunctionCollapse::scratch` (`src/world/wfc.rs` lines 146–158):
draw an index below `keys.len() as u8` with the hash-seeded RNG and take
that key of the schematic map (`keys` is the map's iteration order). -/
def scratch (keys : List Nat) (draw : Nat → Nat) : Option (Nat × Nat) :=
  some (keys.getD (draw (keys.length % 256)) 0, 1)

/-- `WaveFunctionCollapse::collapse_tile` (`src/world/wfc.rs` lines
160–166): draw an index below `available.len() as u8` with the hash-seeded
RNG and take the element of the cell's domain at that iteration position. -/
def collapseTile (cmap : CGrid) (draw : Nat → Nat) (p : Nat × Nat) : Option (Nat × Nat) :=
  let available := get2 cmap p.1 p.2 []
  some (available.getD (draw (available.length % 256)) 0, 1)

/-- The mutable state of `WaveFunctionCollapse`. -/
structure WfcState where
  cmap : CGrid
  tiles : TGrid
deriving Repr, DecidableEq

/-- One iteration of the `while has_next` loop body of
`WaveFunctionCollapse::collapse` on the `Some(next)` branch: collapse the
selected cell, then run `update_constraint_map`. -/
def wfcStep (s : SchematicAsset) (draw : Nat → Nat) (st : WfcState) (p : Nat × Nat) : WfcState :=
  let tiles' := set2 st.tiles p.1 p.2 (collapseTile st.cmap draw p)
  { cmap := updateConstraintMap s tiles' st.cmap, tiles := tiles' }

/-- The final iteration of `WaveFunctionCollapse::collapse`: when
`lowest_entropy` returns `None` the loop still runs one last
`update_constraint_map` before exiting. -/
def wfcFinish (s : SchematicAsset) (st : WfcState) : WfcState :=
  { st with cmap := updateConstraintMap s st.tiles st.cmap }

/-- Fuelled driver for the two `while` loops: pick, step, and on `none`
apply the exit action.  The stabilisation theorems below show the fuel
suffices, which is the termination of the source loops. -/
def loopF (pick : σ → Option ι) (step : σ → ι → σ) (fin : σ → σ) : Nat → σ → σ
  | 0, st => st
  | n + 1, st =>
    match pick st with
    | none => fin st
    | some i => loopF pick step fin n (step st i)

/-- The `while has_next` loop of `WaveFunctionCollapse::collapse`. -/
def wfcLoop (s : SchematicAsset) (draw : Nat → Nat) : Nat → WfcState → WfcState :=
  loopF (fun st => lowestEntropy st.cmap) (wfcStep s draw) (wfcFinish s)

/-- `WaveFunctionCollapse::init` followed by the pre-loop
`self.tiles[0][0] = self.scratch()` of `collapse`: every domain starts as
the full key set (`dom0`, the iteration order of the `init_constraints`
hash set), all tiles `None` except the origin. -/
def wfcInit (dom0 keys : List Nat) (draw : Nat → Nat) : WfcState :=
  { cmap := List.replicate CHUNK_TILE_LENGTH (List.replicate CHUNK_TILE_LENGTH dom0),
    tiles := set2
      (List.replicate CHUNK_TILE_LENGTH (List.replicate CHUNK_TILE_LENGTH none))
      0 0 (scratch keys draw) }

/-- `WaveFunctionCollapse::collapse` (`src/world/wfc.rs` lines 48–66): the
full interior generation of one chunk.  The fuel `L*L + 1` is enough for
the loop to reach its `None` exit (theorem `C10_termination`). -/
def wfcCollapse (s : SchematicAsset) (dom0 keys : List Nat) (draw : Nat → Nat) : TGrid :=
  (wfcLoop s draw (CHUNK_TILE_LENGTH * CHUNK_TILE_LENGTH + 1) (wfcInit dom0 keys draw)).tiles

/-- `get_hash` (`src/world/wfc.rs` lines 685–689): feed
`coords.0 + coords.1 + world_seed as i64` to a fresh `DefaultHasher`.
`DefaultHasher::new()` is deterministic (fixed SipHash keys), so the hasher
is modelled as an arbitrary function `H` of the hashed integer. -/
def get_hash (H : Int → Nat) (world_seed : Nat) (coords : Int × Int) : Nat :=
  H (coords.1 + coords.2 + (world_seed : Int))

/-- A spawned tile entity as the stitcher sees it: its `Tile::texture_id`
and the two translation components of its `Transform` (integer-valued, see
the module comment). -/
abbrev TTile := Nat × Int × Int

/-- `Adjacencies` from `src/world/mod.rs`: the optional tile lists of the
north, east, south and west neighbor chunks (tuple fields `.0`–`.3`). -/
structure Adjacencies where
  north : Option (List TTile)
  east : Option (List TTile)
  south : Option (List TTile)
  west : Option (List TTile)
deriving Repr, DecidableEq

/-- `get_perimeter_world_coord` (`src/world/mod.rs` lines 448–467): world
coordinate of ring position (`side`, `rank`). -/
def get_perimeter_world_coord (coords : Int × Int) (side rank : Int) : Int × Int :=
  if side = 0 then
    (coords.1 - TILE_SIZE + rank * TILE_SIZE, coords.2 + CHUNK_SIZE)
  else if side = 1 then
    (coords.1 + CHUNK_SIZE, coords.2 + CHUNK_SIZE - rank * TILE_SIZE)
  else if side = 2 then
    (coords.1 + CHUNK_SIZE - rank * TILE_SIZE, coords.2 - TILE_SIZE)
  else
    (coords.1 - TILE_SIZE, coords.2 - TILE_SIZE + rank * TILE_SIZE)

/-- A `for (tile, transform) in list { if cond(transform) { retain(dir-list
of tile) } }` loop from `Stitcher::update_constraint_map`. -/
def scanRetain (s : SchematicAsset) (l : List TTile) (cond : TTile → Bool)
    (dir : TileSchematic → List Nat) (dom : List Nat) : List Nat :=
  l.foldl (fun d t => if cond t then retainAllowed (dir (lookupTile s t.1)) d else d) dom

/-- An `if self.tiles[k].is_some() { retain(dir-list of tiles[k]) }` step
from `Stitcher::update_constraint_map`. -/
def ringRetain (s : SchematicAsset) (tv : Option Nat)
    (dir : TileSchematic → List Nat) (dom : List Nat) : List Nat :=
  match tv with
  | some v => retainAllowed (dir (lookupTile s v)) dom
  | none => dom

/-- A `match` on an optional neighbor-chunk tile list: scan it when the
neighbor exists (`if let Some(side_chunk) = &self.adj.k`). -/
def optScan (s : SchematicAsset) (o : Option (List TTile)) (cond : TTile → Bool)
    (dir : TileSchematic → List Nat) (dom : List Nat) : List Nat :=
  match o with
  | some l => scanRetain s l cond dir dom
  | none => dom

/-- The first constraint chain of `Stitcher::update_constraint_map`
("Check chunk and connecting chunks", `src/world/stitcher.rs` lines
86–247): per side, scan the matching neighbor chunk's tiles against the
perimeter world coordinate `p`, then (for non-corner ranks) scan the
chunk's own tiles.  Faithfully preserved source artifact: the own-chunk
scans use the interior tile's `south` allow-list on every side. -/
def ringChain1 (s : SchematicAsset) (chunk : List TTile) (adj : Adjacencies)
    (side rank : Nat) (p : Int × Int) (dom : List Nat) : List Nat :=
  if side == 0 || (side == 1 && rank == 0) then
    if rank != 0 then
      scanRetain s chunk
        (fun t => t.2.1 - TILE_SIZE / 2 == p.1 && t.2.2 - TILE_SIZE / 2 + TILE_SIZE == p.2)
        (fun ts => ts.south)
        (optScan s adj.north
          (fun t => t.2.1 - TILE_SIZE / 2 == p.1 && t.2.2 - TILE_SIZE / 2 - TILE_SIZE == p.2)
          (fun ts => ts.south) dom)
    else
      optScan s adj.north
        (fun t => t.2.1 - TILE_SIZE / 2 == p.1 && t.2.2 - TILE_SIZE / 2 - TILE_SIZE == p.2)
        (fun ts => ts.south) dom
  else if side == 1 || (side == 2 && rank == 0) then
    if rank != 0 then
      scanRetain s chunk
        (fun t => t.2.1 - TILE_SIZE / 2 + TILE_SIZE == p.1 && t.2.2 - TILE_SIZE / 2 == p.2)
        (fun ts => ts.south)
        (optScan s adj.east
          (fun t => t.2.1 - TILE_SIZE / 2 - TILE_SIZE == p.1 && t.2.2 - TILE_SIZE / 2 == p.2)
          (fun ts => ts.west) dom)
    else
      optScan s adj.east
        (fun t => t.2.1 - TILE_SIZE / 2 - TILE_SIZE == p.1 && t.2.2 - TILE_SIZE / 2 == p.2)
        (fun ts => ts.west) dom
  else if side == 2 || (side == 3 && rank == 0) then
    if rank != 0 then
      scanRetain s chunk
        (fun t => t.2.1 - TILE_SIZE / 2 == p.1 && t.2.2 - TILE_SIZE / 2 - TILE_SIZE == p.2)
        (fun ts => ts.south)
        (optScan s adj.south
          (fun t => t.2.1 - TILE_SIZE / 2 == p.1 && t.2.2 - TILE_SIZE / 2 + TILE_SIZE == p.2)
          (fun ts => ts.north) dom)
    else
      optScan s adj.south
        (fun t => t.2.1 - TILE_SIZE / 2 == p.1 && t.2.2 - TILE_SIZE / 2 + TILE_SIZE == p.2)
        (fun ts => ts.north) dom
  else if side == 3 || (side == 0 && rank == 0) then
    if rank != 0 then
      scanRetain s chunk
        (fun t => t.2.1 - TILE_SIZE / 2 - TILE_SIZE == p.1 && t.2.2 - TILE_SIZE / 2 == p.2)
        (fun ts => ts.south)
        (optScan s adj.west
          (fun t => t.2.1 - TILE_SIZE / 2 == p.1 + TILE_SIZE && t.2.2 - TILE_SIZE / 2 == p.2)
          (fun ts => ts.east) dom)
    else
      optScan s adj.west
        (fun t => t.2.1 - TILE_SIZE / 2 == p.1 + TILE_SIZE && t.2.2 - TILE_SIZE / 2 == p.2)
        (fun ts => ts.east) dom
  else dom

/-- The second constraint chain of `Stitcher::update_constraint_map`
("Check before and after idx", `src/world/stitcher.rs` lines 249–433):
retain against the already-collapsed ring neighbors.  Faithfully preserved
source artifacts: the second `side == 1` branch is dead code (same
condition as the branch above it), and the `side == 3, rank == 0` branch
guards on `tiles[idx + 1]` but reads the allow-list of `tiles[0]`. -/
def ringChain2 (s : SchematicAsset) (tiles : List (Option Nat)) (idx side rank : Nat)
    (dom : List Nat) : List Nat :=
  if side == 0 then
    if rank == 0 then
      ringRetain s (tiles.getD (idx + 1) none) (fun ts => ts.west)
        (ringRetain s (tiles.getD (tiles.length - 1) none) (fun ts => ts.north) dom)
    else
      ringRetain s (tiles.getD (idx + 1) none) (fun ts => ts.west)
        (ringRetain s (tiles.getD (idx - 1) none) (fun ts => ts.east) dom)
  else if side == 1 then
    if rank == 0 then
      ringRetain s (tiles.getD (idx + 1) none) (fun ts => ts.north)
        (ringRetain s (tiles.getD (idx - 1) none) (fun ts => ts.north) dom)
    else
      ringRetain s (tiles.getD (idx + 1) none) (fun ts => ts.north)
        (ringRetain s (tiles.getD (idx - 1) none) (fun ts => ts.south) dom)
  else if side == 1 then
    -- dead code in the source: same condition as the branch above
    if rank == 0 then
      ringRetain s (tiles.getD (idx + 1) none) (fun ts => ts.north)
        (ringRetain s (tiles.getD (idx - 1) none) (fun ts => ts.east) dom)
    else
      ringRetain s (tiles.getD (idx + 1) none) (fun ts => ts.north)
        (ringRetain s (tiles.getD (idx - 1) none) (fun ts => ts.south) dom)
  else if side == 2 then
    if rank == 0 then
      ringRetain s (tiles.getD (idx + 1) none) (fun ts => ts.east)
        (ringRetain s (tiles.getD (idx - 1) none) (fun ts => ts.south) dom)
    else
      ringRetain s (tiles.getD (idx + 1) none) (fun ts => ts.east)
        (ringRetain s (tiles.getD (idx - 1) none) (fun ts => ts.west) dom)
  else if side == 3 then
    if rank == 0 then
      if (tiles.getD (idx + 1) none).isSome then
        retainAllowed (lookupTile s ((tiles.getD 0 none).getD 0)).west
          (ringRetain s (tiles.getD (idx - 1) none) (fun ts => ts.north) dom)
      else
        ringRetain s (tiles.getD (idx - 1) none) (fun ts => ts.north) dom
    else if rank == CHUNK_TILE_LENGTH then
      ringRetain s (tiles.getD 0 none) (fun ts => ts.south)
        (ringRetain s (tiles.getD (idx - 1) none) (fun ts => ts.north) dom)
    else
      ringRetain s (tiles.getD (idx + 1) none) (fun ts => ts.south)
        (ringRetain s (tiles.getD (idx - 1) none) (fun ts => ts.north) dom)
  else dom

/-- One cell of `Stitcher::update_constraint_map` (`src/world/stitcher.rs`
lines 71–435): skip empty domains, clear collapsed cells, then run the
neighbor-chunk / own-chunk chain followed by the ring-neighbor chain. -/
def ringUpdateCell (s : SchematicAsset) (coords : Int × Int) (chunk : List TTile)
    (adj : Adjacencies) (tiles : List (Option Nat)) (idx : Nat)
    (dom : List Nat) : List Nat :=
  if dom.isEmpty then dom
  else if (tiles.getD idx none).isSome then []
  else
    ringChain2 s tiles idx (idx / (CHUNK_TILE_LENGTH + 1)) (idx % (CHUNK_TILE_LENGTH + 1))
      (ringChain1 s chunk adj (idx / (CHUNK_TILE_LENGTH + 1)) (idx % (CHUNK_TILE_LENGTH + 1))
        (get_perimeter_world_coord coords ((idx / (CHUNK_TILE_LENGTH + 1) : Nat) : Int)
          ((idx % (CHUNK_TILE_LENGTH + 1) : Nat) : Int))
        dom)

/-- `Stitcher::update_constraint_map`: one pass over the whole
`4L + 4`-entry ring constraint map (`iter_mut().enumerate()`). -/
def ringUpdate (s : SchematicAsset) (coords : Int × Int) (chunk : List TTile)
    (adj : Adjacencies) (tiles : List (Option Nat))
    (cmap : List (List Nat)) : List (List Nat) :=
  (List.range cmap.length).map fun idx =>
    ringUpdateCell s coords chunk adj tiles idx (cmap.getD idx [])

/-- `Stitcher::lowest_entropy` (`src/world/stitcher.rs` lines 48–68). -/
def ringLowestEntropy (cmap : List (List Nat)) : Option Nat :=
  (lowestFold (fun i => (cmap.getD i []).length) (List.range cmap.length)).1

/-- `Stitcher::collapse_tile` (`src/world/stitcher.rs` lines 437–443):
draw from the unseeded `thread_rng` (`drawE`) an index below
`available.len() as u8` and take that element of the domain. -/
def stitchCollapseTile (cmap : List (List Nat)) (drawE : Nat → Nat) (idx : Nat) : Option Nat :=
  let available := cmap.getD idx []
  some (available.getD (drawE (available.length % 256)) 0)

/-- The mutable state of `Stitcher`. -/
structure StitchState where
  cmap : List (List Nat)
  tiles : List (Option Nat)
deriving Repr, DecidableEq

/-- One iteration of the `while let Some(next)` loop of `Stitcher::stitch`:
collapse the selected ring cell, then run `update_constraint_map`. -/
def stitchStep (s : SchematicAsset) (coords : Int × Int) (chunk : List TTile)
    (adj : Adjacencies) (drawE : Nat → Nat) (st : StitchState) (idx : Nat) : StitchState :=
  let tiles' := st.tiles.set idx (stitchCollapseTile st.cmap drawE idx)
  { tiles := tiles', cmap := ringUpdate s coords chunk adj tiles' st.cmap }

/-- The `while let Some(next)` loop of `Stitcher::stitch` (no exit action:
the loop stops as soon as `lowest_entropy` is `None`). -/
def stitchLoop (s : SchematicAsset) (coords : Int × Int) (chunk : List TTile)
    (adj : Adjacencies) (drawE : Nat → Nat) : Nat → StitchState → StitchState :=
  loopF (fun st => ringLowestEntropy st.cmap) (stitchStep s coords chunk adj drawE) id

/-- `Stitcher::init_stitching_constaints` (`src/world/stitcher.rs` lines
445–466): a ring cell's domain starts as the full key set (`dom0`, the
iteration order of the `into_keys` hash set) when the matching side's
neighbor exists, else empty. -/
def initStitchingConstraints (dom0 : List Nat) (adj : Adjacencies) : List (List Nat) :=
  (List.range (4 * CHUNK_TILE_LENGTH + 4)).map fun idx =>
    let side := idx / (CHUNK_TILE_LENGTH + 1)
    let rank := idx % (CHUNK_TILE_LENGTH + 1)
    if adj.north.isSome && (side == 0 || (side == 1 && rank == 0)) then dom0
    else if adj.east.isSome && (side == 1 || (side == 2 && rank == 0)) then dom0
    else if adj.south.isSome && (side == 2 || (side == 3 && rank == 0)) then dom0
    else if adj.west.isSome && (side == 3 || (side == 0 && rank == 0)) then dom0
    else []

/-- `Stitcher::init` (`src/world/stitcher.rs` lines 21–35). -/
def stitchInit (dom0 : List Nat) (adj : Adjacencies) : StitchState :=
  { cmap := initStitchingConstraints dom0 adj,
    tiles := List.replicate (4 * CHUNK_TILE_LENGTH + 4) none }

/-- `Stitcher::stitch` (`src/world/stitcher.rs` lines 37–46): the full
perimeter resolution.  The fuel `4L + 5` is enough for the loop to reach
its `None` exit (theorem `C10_termination`). -/
def stitchRun (s : SchematicAsset) (coords : Int × Int) (chunk : List TTile)
    (adj : Adjacencies) (dom0 : List Nat) (drawE : Nat → Nat) : List (Option Nat) :=
  (stitchLoop s coords chunk adj drawE (4 * CHUNK_TILE_LENGTH + 4 + 1)
    (stitchInit dom0 adj)).tiles

/-- The per-dirty-chunk body of `gen_chunk_stitches` (`src/world/mod.rs`
lines 161–248): run the stitcher, spawn one tile per ring position (the
stitched identifier, or `schematic.not_found` for an unresolved cell), and
unconditionally `remove::<Dirty>()` — the second component is the chunk's
dirty flag after the pass. -/
def genChunkStitchesChunk (s : SchematicAsset) (coords : Int × Int)
    (chunk : List TTile) (adj : Adjacencies) (dom0 : List Nat)
    (drawE : Nat → Nat) : List Nat × Bool :=
  let edges := stitchRun s coords chunk adj dom0 drawE
  (((List.range (4 * CHUNK_TILE_LENGTH + 4)).map fun idx =>
     (edges.getD idx none).getD s.not_found),
   false)

/-- The per-cell tile-spawning logic of `create_chunks` (`src/world/mod.rs`
lines 314–360): a collapsed cell spawns its identifier, an unresolved cell
spawns `schematic.not_found`.  (That revision's generator stores bare ids;
the `wfc.rs` generator referenced by the claims pairs the id with a
constant variant index, so we take the pair's first component.) -/
def createChunkTileIds (s : SchematicAsset) (tiles : TGrid) : List (List Nat) :=
  mapGrid fun x y =>
    match get2 tiles x y none with
    | some t => t.1
    | none => s.not_found

/-- `get_chunks_in_range` (`src/world/mod.rs` lines 428–446).  The source
pre-fills the vector with `(2 * RENDER_DISTANCE) ^ 2` default coordinates —
in Rust `^` is XOR, so that is `4 XOR 2 = 6` copies of `(0, 0)` — and then
pushes the `(2R+1)²` offsets.  Positions are integer-valued in every call
(`f32` floor-division by 288 is exact there), modelled by `Int.fdiv`. -/
def get_chunks_in_range (pos : Int × Int) : List (Int × Int) :=
  let offset_x := Int.fdiv (pos.1 - TILE_SIZE) (CHUNK_SIZE + TILE_SIZE)
  let offset_y := Int.fdiv (pos.2 - TILE_SIZE) (CHUNK_SIZE + TILE_SIZE)
  let coords : List (Int × Int) :=
    List.replicate (Nat.xor (2 * RENDER_DISTANCE) 2) (0, 0)
  let offsets : List Int :=
    (List.range (2 * RENDER_DISTANCE + 1)).map fun k => (k : Int) - (RENDER_DISTANCE : Int)
  coords ++ (offsets.flatMap fun x => offsets.map fun y =>
    ((offset_x + x) * (CHUNK_SIZE + TILE_SIZE) - TILE_SIZE,
     (offset_y + y) * (CHUNK_SIZE + TILE_SIZE) - TILE_SIZE))

/-! ## Concrete schematics used as test inputs -/

/-- One tile type (id 0) allowing itself in every direction. -/
def oneTile : SchematicAsset :=
  ⟨0, [(0, ⟨1, [0], [0], [0], [0]⟩)]⟩

/-- Two tile types, each allowing both in every direction. -/
def twoTilesFree : SchematicAsset :=
  ⟨0, [(0, ⟨1, [0, 1], [0, 1], [0, 1], [0, 1]⟩),
       (1, ⟨1, [0, 1], [0, 1], [0, 1], [0, 1]⟩)]⟩

/-- An asymmetric ruleset: tile 0 allows only 1 to its north, while tile 1
allows only 1 to its south (so `0` north-of-`0` and `0` south-of-`1` are
ruled out in one direction but not the other). -/
def twoTilesAsym : SchematicAsset :=
  ⟨0, [(0, ⟨1, [1], [0, 1], [0, 1], [0, 1]⟩),
       (1, ⟨1, [0, 1], [0, 1], [1], [0, 1]⟩)]⟩

/-- Tile 0 allows nothing to its east; tile 1 allows everything. -/
def twoTilesNoEast : SchematicAsset :=
  ⟨0, [(0, ⟨1, [0, 1], [], [0, 1], [0, 1]⟩),
       (1, ⟨1, [0, 1], [0, 1], [0, 1], [0, 1]⟩)]⟩

/-- The constant-zero draw: a legitimate value for every `gen_range(0..n)`
with `0 < n`. -/
def drawZero : Nat → Nat := fun _ => 0

/-- Adjacency with only an east neighbor (which holds no tiles). -/
def adjEastOnly : Adjacencies := ⟨none, some [], none, none⟩

/-- Adjacency with no neighbors at all. -/
def adjNone : Adjacencies := ⟨none, none, none, none⟩

/-- The interior state after the first collapse-loop iteration of a
one-tile run (used to exercise the selection lemmas on a concrete map). -/
def exWfcState1 : WfcState := wfcStep oneTile drawZero (wfcInit [0] [0] drawZero) (0, 0)

/-! ## List and grid helper lemmas -/

theorem getD_set_self {α : Type} (l : List α) (i : Nat) (v d : α) (h : i < l.length) :
    (l.set i v).getD i d = v := by
  induction l generalizing i with
  | nil => simp at h
  | cons a l ih =>
    cases i with
    | zero => rfl
    | succ i => exact ih i (Nat.lt_of_succ_lt_succ h)

theorem getD_set_ne {α : Type} (l : List α) (i j : Nat) (v d : α) (h : i ≠ j) :
    (l.set i v).getD j d = l.getD j d := by
  induction l generalizing i j with
  | nil => rfl
  | cons a l ih =>
    cases i with
    | zero =>
      cases j with
      | zero => exact absurd rfl h
      | succ j => rfl
    | succ i =>
      cases j with
      | zero => rfl
      | succ j => exact ih i j (fun hc => h (by rw [hc]))

theorem getD_replicate {α : Type} (n i : Nat) (a d : α) (h : i < n) :
    (List.replicate n a).getD i d = a := by
  induction n generalizing i with
  | zero => simp at h
  | succ n ih =>
    cases i with
    | zero => rfl
    | succ i => exact ih i (Nat.lt_of_succ_lt_succ h)

theorem getD_map_range {α : Type} (f : Nat → α) (n i : Nat) (d : α) (h : i < n) :
    ((List.range n).map f).getD i d = f i := by
  induction n with
  | zero => simp at h
  | succ n ih =>
    rcases Nat.lt_succ_iff_lt_or_eq.mp h with h' | h'
    · rw [List.range_succ, List.map_append, List.getD_append]
      · exact ih h'
      · simpa using h'
    · subst h'
      rw [List.range_succ, List.map_append]
      rw [List.getD_eq_getElem?_getD, List.getElem?_append_right (by simp)]
      simp

theorem getD_of_length_le {α : Type} (l : List α) (i : Nat) (d : α) (h : l.length ≤ i) :
    l.getD i d = d := by
  rw [List.getD_eq_getElem?_getD, List.getElem?_eq_none (by simpa using h)]
  rfl

theorem getD_mem {α : Type} (l : List α) (i : Nat) (d : α) (h : i < l.length) :
    l.getD i d ∈ l := by
  rw [List.getD_eq_getElem?_getD, List.getElem?_eq_getElem h]
  exact List.getElem_mem h

/-- Well-formedness of an `L × L` grid. -/
def WFG {α : Type} (g : List (List α)) : Prop :=
  g.length = CHUNK_TILE_LENGTH ∧ ∀ r ∈ g, r.length = CHUNK_TILE_LENGTH

theorem wfg_replicate {α : Type} (a : List α) (ha : a.length = CHUNK_TILE_LENGTH) :
    WFG (List.replicate CHUNK_TILE_LENGTH a) := by
  constructor
  · simp
  · intro r hr
    rw [List.eq_of_mem_replicate hr]
    exact ha

theorem wfg_mapGrid {α : Type} (f : Nat → Nat → α) : WFG (mapGrid f) := by
  constructor
  · simp [mapGrid]
  · intro r hr
    simp only [mapGrid, List.mem_map] at hr
    obtain ⟨x, _, rfl⟩ := hr
    simp

theorem wfg_set2 {α : Type} (g : List (List α)) (x y : Nat) (v : α) (h : WFG g) :
    WFG (set2 g x y v) := by
  obtain ⟨h1, h2⟩ := h
  constructor
  · simp [set2, h1]
  · intro r hr
    rcases Nat.lt_or_ge x g.length with hx | hx
    · rcases List.mem_or_eq_of_mem_set hr with hr' | hr'
      · exact h2 r hr'
      · subst hr'
        rw [List.length_set]
        exact h2 _ (getD_mem _ _ _ hx)
    · rw [set2, List.set_eq_of_length_le hx] at hr
      exact h2 r hr

theorem get2_mapGrid {α : Type} (f : Nat → Nat → α) (x y : Nat) (d : α)
    (hx : x < CHUNK_TILE_LENGTH) (hy : y < CHUNK_TILE_LENGTH) :
    get2 (mapGrid f) x y d = f x y := by
  rw [get2, mapGrid, getD_map_range _ _ _ _ hx, getD_map_range _ _ _ _ hy]

theorem get2_mapGrid_oob {α : Type} (f : Nat → Nat → List α) (x y : Nat)
    (h : ¬ (x < CHUNK_TILE_LENGTH ∧ y < CHUNK_TILE_LENGTH)) :
    get2 (mapGrid f) x y [] = [] := by
  rcases Nat.lt_or_ge x CHUNK_TILE_LENGTH with hx | hx
  · rcases Nat.lt_or_ge y CHUNK_TILE_LENGTH with hy | hy
    · exact absurd ⟨hx, hy⟩ h
    · have h1 := getD_map_range
        (fun x => (List.range CHUNK_TILE_LENGTH).map fun y => f x y) _ x [] hx
      rw [get2, mapGrid, h1, getD_of_length_le _ _ _ (by simpa using hy)]
  · have h1 : (mapGrid f).getD x [] = [] :=
      getD_of_length_le _ _ _ (by simp [mapGrid]; omega)
    rw [get2, h1]
    rfl

theorem get2_replicate {α : Type} (a : α) (x y : Nat) (d : α)
    (hx : x < CHUNK_TILE_LENGTH) (hy : y < CHUNK_TILE_LENGTH) :
    get2 (List.replicate CHUNK_TILE_LENGTH (List.replicate CHUNK_TILE_LENGTH a)) x y d = a := by
  rw [get2, getD_replicate _ _ _ _ hx, getD_replicate _ _ _ _ hy]

theorem get2_set2_self {α : Type} (g : List (List α)) (x y : Nat) (v d : α)
    (hg : WFG g) (hx : x < CHUNK_TILE_LENGTH) (hy : y < CHUNK_TILE_LENGTH) :
    get2 (set2 g x y v) x y d = v := by
  obtain ⟨h1, h2⟩ := hg
  have hxl : x < g.length := by rw [h1]; exact hx
  have hrow : (g.getD x []).length = CHUNK_TILE_LENGTH := h2 _ (getD_mem _ _ _ hxl)
  rw [get2, set2, getD_set_self _ _ _ _ hxl,
    getD_set_self _ _ _ _ (by rw [hrow]; exact hy)]

theorem get2_set2_ne {α : Type} (g : List (List α)) (x y x' y' : Nat) (v d : α)
    (h : ¬ (x = x' ∧ y = y')) :
    get2 (set2 g x y v) x' y' d = get2 g x' y' d := by
  rcases Nat.decEq x x' with hx | hx
  · rw [get2, set2, getD_set_ne _ _ _ _ _ hx]
    rfl
  · subst hx
    have hyy : y ≠ y' := fun hc => h ⟨rfl, hc⟩
    rcases Nat.lt_or_ge x g.length with hxl | hxl
    · rw [get2, set2, getD_set_self _ _ _ _ hxl, getD_set_ne _ _ _ _ _ hyy]
      rfl
    · rw [set2, List.set_eq_of_length_le hxl]

/-! ## Properties of the retain combinators -/

theorem mem_retainAllowed {t : Nat} {allowed dom : List Nat} :
    t ∈ retainAllowed allowed dom ↔ t ∈ dom ∧ t ∈ allowed := by
  simp [retainAllowed, List.mem_filter]

theorem retainAllowed_subset (allowed dom : List Nat) : retainAllowed allowed dom ⊆ dom :=
  fun _ ht => (List.mem_filter.mp ht).1

theorem retainAllowed_sub_trans {allowed l dom : List Nat} (h : l ⊆ dom) :
    retainAllowed allowed l ⊆ dom :=
  fun _ ht => h (retainAllowed_subset _ _ ht)

theorem retainAllowed_length (allowed dom : List Nat) :
    (retainAllowed allowed dom).length ≤ dom.length :=
  List.length_filter_le _ _

theorem neighborRetain_subset (s : SchematicAsset) (o : Option (Nat × Nat))
    (dir : TileSchematic → List Nat) (dom : List Nat) :
    neighborRetain s o dir dom ⊆ dom := by
  cases o with
  | none => exact fun _ h => h
  | some nb => exact retainAllowed_subset _ _

theorem neighborRetain_sub_trans {s : SchematicAsset} {o : Option (Nat × Nat)}
    {dir : TileSchematic → List Nat} {l dom : List Nat} (h : l ⊆ dom) :
    neighborRetain s o dir l ⊆ dom :=
  fun _ ht => h (neighborRetain_subset _ _ _ _ ht)

theorem neighborRetain_length (s : SchematicAsset) (o : Option (Nat × Nat))
    (dir : TileSchematic → List Nat) (dom : List Nat) :
    (neighborRetain s o dir dom).length ≤ dom.length := by
  cases o with
  | none => exact Nat.le_refl _
  | some nb => exact retainAllowed_length _ _

theorem mem_neighborRetain {t : Nat} {s : SchematicAsset} {o : Option (Nat × Nat)}
    {dir : TileSchematic → List Nat} {dom : List Nat}
    (h : t ∈ neighborRetain s o dir dom) :
    t ∈ dom ∧ ∀ nb, o = some nb → t ∈ dir (lookupTile s nb.1) := by
  cases o with
  | none => exact ⟨h, fun nb hnb => by cases hnb⟩
  | some nb =>
    have h2 := mem_retainAllowed.mp h
    exact ⟨h2.1, fun nb2 hnb2 => by cases hnb2; exact h2.2⟩

/-! ## Per-cell properties of the interior constraint update -/

theorem updateCell_subset (s : SchematicAsset) (tiles : TGrid) (x y : Nat)
    (dom : List Nat) : updateCell s tiles x y dom ⊆ dom := by
  unfold updateCell
  split
  · exact List.nil_subset _
  · exact neighborRetain_sub_trans (neighborRetain_sub_trans
      (neighborRetain_sub_trans (neighborRetain_subset _ _ _ _)))

theorem updateCell_length (s : SchematicAsset) (tiles : TGrid) (x y : Nat)
    (dom : List Nat) : (updateCell s tiles x y dom).length ≤ dom.length := by
  unfold updateCell
  split
  · exact Nat.zero_le _
  · exact Nat.le_trans (neighborRetain_length _ _ _ _)
      (Nat.le_trans (neighborRetain_length _ _ _ _)
        (Nat.le_trans (neighborRetain_length _ _ _ _) (neighborRetain_length _ _ _ _)))

theorem updateCell_of_isSome {s : SchematicAsset} {tiles : TGrid} {x y : Nat}
    (dom : List Nat) (h : (get2 tiles x y none).isSome) :
    updateCell s tiles x y dom = [] := by
  unfold updateCell
  rw [if_pos h]

theorem updateCell_ne_nil {s : SchematicAsset} {tiles : TGrid} {x y : Nat}
    {dom : List Nat} (h : updateCell s tiles x y dom ≠ []) :
    get2 tiles x y none = none := by
  cases ho : get2 tiles x y none with
  | none => rfl
  | some v => exact absurd (updateCell_of_isSome dom (by rw [ho]; rfl)) h

theorem updateCell_mem_west {s : SchematicAsset} {tiles : TGrid} {x y : Nat}
    {dom : List Nat} {t : Nat} {a : Nat × Nat} (hx : 1 ≤ x)
    (ha : get2 tiles (x - 1) y none = some a)
    (ht : t ∈ updateCell s tiles x y dom) : t ∈ (lookupTile s a.1).east := by
  by_cases hs : (get2 tiles x y none).isSome
  · rw [updateCell_of_isSome dom hs] at ht
    cases ht
  · unfold updateCell at ht
    rw [if_neg hs] at ht
    have h1 := (mem_neighborRetain ht).1
    have h2 := (mem_neighborRetain h1).1
    have h3 := (mem_neighborRetain h2).1
    exact (mem_neighborRetain h3).2 a (by rw [if_pos hx]; exact ha)

theorem updateCell_mem_south {s : SchematicAsset} {tiles : TGrid} {x y : Nat}
    {dom : List Nat} {t : Nat} {a : Nat × Nat} (hy : 1 ≤ y)
    (ha : get2 tiles x (y - 1) none = some a)
    (ht : t ∈ updateCell s tiles x y dom) : t ∈ (lookupTile s a.1).north := by
  by_cases hs : (get2 tiles x y none).isSome
  · rw [updateCell_of_isSome dom hs] at ht
    cases ht
  · unfold updateCell at ht
    rw [if_neg hs] at ht
    have h1 := (mem_neighborRetain ht).1
    have h2 := (mem_neighborRetain h1).1
    exact (mem_neighborRetain h2).2 a (by rw [if_pos hy]; exact ha)

theorem updateCell_mem_east {s : SchematicAsset} {tiles : TGrid} {x y : Nat}
    {dom : List Nat} {t : Nat} {a : Nat × Nat} (hx : x + 1 < CHUNK_TILE_LENGTH)
    (ha : get2 tiles (x + 1) y none = some a)
    (ht : t ∈ updateCell s tiles x y dom) : t ∈ (lookupTile s a.1).west := by
  by_cases hs : (get2 tiles x y none).isSome
  · rw [updateCell_of_isSome dom hs] at ht
    cases ht
  · unfold updateCell at ht
    rw [if_neg hs] at ht
    have h1 := (mem_neighborRetain ht).1
    exact (mem_neighborRetain h1).2 a (by rw [if_pos hx]; exact ha)

theorem updateCell_mem_north {s : SchematicAsset} {tiles : TGrid} {x y : Nat}
    {dom : List Nat} {t : Nat} {a : Nat × Nat} (hy : y + 1 < CHUNK_TILE_LENGTH)
    (ha : get2 tiles x (y + 1) none = some a)
    (ht : t ∈ updateCell s tiles x y dom) : t ∈ (lookupTile s a.1).south := by
  by_cases hs : (get2 tiles x y none).isSome
  · rw [updateCell_of_isSome dom hs] at ht
    cases ht
  · unfold updateCell at ht
    rw [if_neg hs] at ht
    exact (mem_neighborRetain ht).2 a (by rw [if_pos hy]; exact ha)

/-! ## Lifted properties of the interior constraint-map pass -/

theorem ucm_get (s : SchematicAsset) (tiles : TGrid) (cmap : CGrid) (x y : Nat)
    (hx : x < CHUNK_TILE_LENGTH) (hy : y < CHUNK_TILE_LENGTH) :
    get2 (updateConstraintMap s tiles cmap) x y [] =
      updateCell s tiles x y (get2 cmap x y []) :=
  get2_mapGrid _ x y [] hx hy

theorem ucm_oob (s : SchematicAsset) (tiles : TGrid) (cmap : CGrid) (x y : Nat)
    (h : ¬ (x < CHUNK_TILE_LENGTH ∧ y < CHUNK_TILE_LENGTH)) :
    get2 (updateConstraintMap s tiles cmap) x y [] = [] :=
  get2_mapGrid_oob _ x y h

theorem ucm_subset (s : SchematicAsset) (tiles : TGrid) (cmap : CGrid) (x y : Nat) :
    get2 (updateConstraintMap s tiles cmap) x y [] ⊆ get2 cmap x y [] := by
  by_cases h : x < CHUNK_TILE_LENGTH ∧ y < CHUNK_TILE_LENGTH
  · rw [ucm_get s tiles cmap x y h.1 h.2]
    exact updateCell_subset _ _ _ _ _
  · rw [ucm_oob s tiles cmap x y h]
    exact List.nil_subset _

/-! ## Properties of the stitcher constraint update -/

theorem scanRetain_subset (s : SchematicAsset) (cond : TTile → Bool)
    (dir : TileSchematic → List Nat) :
    ∀ (l : List TTile) (dom : List Nat), scanRetain s l cond dir dom ⊆ dom := by
  intro l
  induction l with
  | nil => exact fun dom _ h => h
  | cons t l ih =>
    intro dom u hu
    have hu2 := ih (if cond t then retainAllowed (dir (lookupTile s t.1)) dom else dom) hu
    by_cases hc : cond t
    · rw [if_pos hc] at hu2
      exact retainAllowed_subset _ _ hu2
    · rwa [if_neg hc] at hu2

theorem scanRetain_sub_trans {s : SchematicAsset} {cond : TTile → Bool}
    {dir : TileSchematic → List Nat} {cl : List TTile} {l dom : List Nat}
    (h : l ⊆ dom) : scanRetain s cl cond dir l ⊆ dom :=
  fun _ ht => h (scanRetain_subset _ _ _ _ _ ht)

theorem optScan_subset (s : SchematicAsset) (o : Option (List TTile))
    (cond : TTile → Bool) (dir : TileSchematic → List Nat) (dom : List Nat) :
    optScan s o cond dir dom ⊆ dom := by
  cases o with
  | none => exact fun _ h => h
  | some l => exact scanRetain_subset _ _ _ _ _

theorem optScan_sub_trans {s : SchematicAsset} {o : Option (List TTile)}
    {cond : TTile → Bool} {dir : TileSchematic → List Nat} {l dom : List Nat}
    (h : l ⊆ dom) : optScan s o cond dir l ⊆ dom :=
  fun _ ht => h (optScan_subset _ _ _ _ _ ht)

theorem ringRetain_subset (s : SchematicAsset) (tv : Option Nat)
    (dir : TileSchematic → List Nat) (dom : List Nat) :
    ringRetain s tv dir dom ⊆ dom := by
  cases tv with
  | none => exact fun _ h => h
  | some v => exact retainAllowed_subset _ _

theorem ringRetain_sub_trans {s : SchematicAsset} {tv : Option Nat}
    {dir : TileSchematic → List Nat} {l dom : List Nat}
    (h : l ⊆ dom) : ringRetain s tv dir l ⊆ dom :=
  fun _ ht => h (ringRetain_subset _ _ _ _ ht)

theorem ringChain1_subset (s : SchematicAsset) (chunk : List TTile) (adj : Adjacencies)
    (side rank : Nat) (p : Int × Int) (dom : List Nat) :
    ringChain1 s chunk adj side rank p dom ⊆ dom := by
  unfold ringChain1
  repeat' split
  all_goals
    repeat
      first
      | exact List.Subset.refl _
      | apply scanRetain_sub_trans
      | apply optScan_sub_trans

theorem ringChain2_subset (s : SchematicAsset) (tiles : List (Option Nat))
    (idx side rank : Nat) (dom : List Nat) :
    ringChain2 s tiles idx side rank dom ⊆ dom := by
  unfold ringChain2
  repeat' split
  all_goals
    repeat
      first
      | exact List.Subset.refl _
      | apply ringRetain_sub_trans
      | apply retainAllowed_sub_trans

theorem ringUpdateCell_subset (s : SchematicAsset) (coords : Int × Int)
    (chunk : List TTile) (adj : Adjacencies) (tiles : List (Option Nat))
    (idx : Nat) (dom : List Nat) :
    ringUpdateCell s coords chunk adj tiles idx dom ⊆ dom := by
  unfold ringUpdateCell
  split
  · exact List.Subset.refl _
  · split
    · exact List.nil_subset _
    · exact fun t ht =>
        ringChain1_subset _ _ _ _ _ _ _ (ringChain2_subset _ _ _ _ _ _ ht)

theorem ringUpdateCell_of_isSome {s : SchematicAsset} {coords : Int × Int}
    {chunk : List TTile} {adj : Adjacencies} {tiles : List (Option Nat)}
    {idx : Nat} (dom : List Nat) (h : (tiles.getD idx none).isSome) :
    ringUpdateCell s coords chunk adj tiles idx dom = [] := by
  unfold ringUpdateCell
  by_cases he : dom.isEmpty
  · rw [if_pos he]
    exact List.isEmpty_iff.mp he
  · rw [if_neg he, if_pos h]

theorem ringUpdate_get (s : SchematicAsset) (coords : Int × Int) (chunk : List TTile)
    (adj : Adjacencies) (tiles : List (Option Nat)) (cmap : List (List Nat))
    (idx : Nat) (h : idx < cmap.length) :
    (ringUpdate s coords chunk adj tiles cmap).getD idx [] =
      ringUpdateCell s coords chunk adj tiles idx (cmap.getD idx []) :=
  getD_map_range _ _ _ _ h

theorem ringUpdate_oob (s : SchematicAsset) (coords : Int × Int) (chunk : List TTile)
    (adj : Adjacencies) (tiles : List (Option Nat)) (cmap : List (List Nat))
    (idx : Nat) (h : cmap.length ≤ idx) :
    (ringUpdate s coords chunk adj tiles cmap).getD idx [] = [] :=
  getD_of_length_le _ _ _ (by simpa [ringUpdate] using h)

theorem ringUpdate_length (s : SchematicAsset) (coords : Int × Int) (chunk : List TTile)
    (adj : Adjacencies) (tiles : List (Option Nat)) (cmap : List (List Nat)) :
    (ringUpdate s coords chunk adj tiles cmap).length = cmap.length := by
  simp [ringUpdate]

theorem ringUpdate_subset (s : SchematicAsset) (coords : Int × Int) (chunk : List TTile)
    (adj : Adjacencies) (tiles : List (Option Nat)) (cmap : List (List Nat))
    (idx : Nat) :
    (ringUpdate s coords chunk adj tiles cmap).getD idx [] ⊆ cmap.getD idx [] := by
  rcases Nat.lt_or_ge idx cmap.length with h | h
  · rw [ringUpdate_get s coords chunk adj tiles cmap idx h]
    exact ringUpdateCell_subset _ _ _ _ _ _ _
  · rw [ringUpdate_oob s coords chunk adj tiles cmap idx h]
    exact List.nil_subset _

/-! ## Characterisation of the lowest-entropy scan -/

/-- The step function of `lowestFold`. -/
def lfStep (f : ι → Nat) (acc : Option ι × Nat) (i : ι) : Option ι × Nat :=
  if 0 < f i ∧ (acc.2 = 0 ∨ f i < acc.2) then (some i, f i) else acc

/-- Accumulator invariant of the scan: either nothing was selected yet and
every processed index has size zero, or the selected index is the first
processed index attaining the running minimum. -/
def LFInv (f : ι → Nat) (processed : List ι) (acc : Option ι × Nat) : Prop :=
  (acc = (none, 0) ∧ ∀ j ∈ processed, f j = 0) ∨
  (∃ i pre post, acc = (some i, f i) ∧ 0 < f i ∧ processed = pre ++ i :: post ∧
    (∀ j ∈ pre, f j = 0 ∨ f i < f j) ∧ (∀ j ∈ post, f j = 0 ∨ f i ≤ f j))

theorem lfInv_step {f : ι → Nat} {processed : List ι} {acc : Option ι × Nat}
    (h : LFInv f processed acc) (j : ι) :
    LFInv f (processed ++ [j]) (lfStep f acc j) := by
  rcases h with ⟨hacc, hall⟩ | ⟨i, pre, post, hacc, hpos, hproc, hpre, hpost⟩
  · subst hacc
    unfold lfStep
    by_cases hj : 0 < f j
    · rw [if_pos ⟨hj, Or.inl rfl⟩]
      exact Or.inr ⟨j, processed, [], rfl, hj, rfl,
        fun k hk => Or.inl (hall k hk), fun k hk => by cases hk⟩
    · rw [if_neg (fun hc => hj hc.1)]
      refine Or.inl ⟨rfl, fun k hk => ?_⟩
      rcases List.mem_append.mp hk with hk | hk
      · exact hall k hk
      · rw [List.mem_singleton.mp hk]
        exact Nat.eq_zero_of_not_pos hj
  · subst hacc hproc
    unfold lfStep
    by_cases hj : 0 < f j ∧ (f i = 0 ∨ f j < f i)
    · rw [if_pos hj]
      have hji : f j < f i := by
        rcases hj.2 with h0 | h0
        · exact absurd h0 (Nat.ne_of_gt hpos)
        · exact h0
      refine Or.inr ⟨j, pre ++ i :: post, [], rfl, hj.1, rfl, ?_, fun k hk => by cases hk⟩
      intro k hk
      rcases List.mem_append.mp hk with hk | hk
      · rcases hpre k hk with h0 | h0
        · exact Or.inl h0
        · exact Or.inr (Nat.lt_trans hji h0)
      · rcases List.mem_cons.mp hk with hk | hk
        · subst hk
          exact Or.inr hji
        · rcases hpost k hk with h0 | h0
          · exact Or.inl h0
          · exact Or.inr (Nat.lt_of_lt_of_le hji h0)
    · rw [if_neg hj]
      refine Or.inr ⟨i, pre, post ++ [j], rfl, hpos, by rw [List.append_assoc]; rfl, hpre, ?_⟩
      intro k hk
      rcases List.mem_append.mp hk with hk | hk
      · exact hpost k hk
      · rw [List.mem_singleton.mp hk]
        rcases Nat.eq_zero_or_pos (f j) with h0 | h0
        · exact Or.inl h0
        · refine Or.inr (Nat.le_of_not_lt fun hc => hj ⟨h0, Or.inr hc⟩)

theorem lfInv_foldl (f : ι → Nat) :
    ∀ (l processed : List ι) (acc : Option ι × Nat), LFInv f processed acc →
      LFInv f (processed ++ l) (l.foldl (lfStep f) acc) := by
  intro l
  induction l with
  | nil => intro processed acc h; simpa using h
  | cons j l ih =>
    intro processed acc h
    have h2 := ih (processed ++ [j]) (lfStep f acc j) (lfInv_step h j)
    rw [List.append_assoc] at h2
    simpa using h2

theorem lowestFold_eq_foldl (f : ι → Nat) (l : List ι) :
    lowestFold f l = l.foldl (lfStep f) (none, 0) := rfl

theorem lowestFold_inv (f : ι → Nat) (l : List ι) : LFInv f l (lowestFold f l) := by
  have h := lfInv_foldl f l [] (none, 0) (Or.inl ⟨rfl, by simp⟩)
  rw [lowestFold_eq_foldl]
  simpa using h

theorem lowestFold_none {f : ι → Nat} {l : List ι}
    (h : (lowestFold f l).1 = none) : ∀ j ∈ l, f j = 0 := by
  rcases lowestFold_inv f l with ⟨_, hall⟩ | ⟨i, pre, post, hacc, _, _, _, _⟩
  · exact hall
  · rw [hacc] at h
    cases h

theorem lowestFold_some {f : ι → Nat} {l : List ι} {i : ι}
    (h : (lowestFold f l).1 = some i) :
    0 < f i ∧ ∃ pre post, l = pre ++ i :: post ∧
      (∀ j ∈ pre, f j = 0 ∨ f i < f j) ∧ (∀ j ∈ post, f j = 0 ∨ f i ≤ f j) := by
  rcases lowestFold_inv f l with ⟨hacc, _⟩ | ⟨i2, pre, post, hacc, hpos, hproc, hpre, hpost⟩
  · rw [hacc] at h
    cases h
  · rw [hacc] at h
    cases h
    exact ⟨hpos, pre, post, hproc, hpre, hpost⟩

/-! ## Facts about the scan orders -/

theorem rasterPairs_bounds : ∀ q ∈ rasterPairs, q.1 < CHUNK_TILE_LENGTH ∧ q.2 < CHUNK_TILE_LENGTH := by
  decide

theorem lowestEntropy_some {cmap : CGrid} {p : Nat × Nat}
    (h : lowestEntropy cmap = some p) :
    0 < (get2 cmap p.1 p.2 []).length ∧ ∃ pre post, rasterPairs = pre ++ p :: post ∧
      (∀ q ∈ pre, (get2 cmap q.1 q.2 []).length = 0 ∨
        (get2 cmap p.1 p.2 []).length < (get2 cmap q.1 q.2 []).length) ∧
      (∀ q ∈ post, (get2 cmap q.1 q.2 []).length = 0 ∨
        (get2 cmap p.1 p.2 []).length ≤ (get2 cmap q.1 q.2 []).length) :=
  lowestFold_some h

theorem lowestEntropy_mem {cmap : CGrid} {p : Nat × Nat}
    (h : lowestEntropy cmap = some p) : p.1 < CHUNK_TILE_LENGTH ∧ p.2 < CHUNK_TILE_LENGTH := by
  obtain ⟨-, pre, post, hdec, -, -⟩ := lowestEntropy_some h
  exact rasterPairs_bounds p (by rw [hdec]; exact List.mem_append_right _ (List.mem_cons_self _ _))

theorem ringLowestEntropy_some {cmap : List (List Nat)} {i : Nat}
    (h : ringLowestEntropy cmap = some i) :
    0 < (cmap.getD i []).length ∧ i < cmap.length := by
  obtain ⟨hpos, pre, post, hdec, -, -⟩ := lowestFold_some h
  refine ⟨hpos, ?_⟩
  have : i ∈ List.range cmap.length := by
    rw [hdec]
    exact List.mem_append_right _ (List.mem_cons_self _ _)
  simpa using this

theorem lowestEntropy_replicate (dom0 : List Nat) (h : dom0 ≠ []) :
    lowestEntropy
      (List.replicate CHUNK_TILE_LENGTH (List.replicate CHUNK_TILE_LENGTH dom0)) =
      some (0, 0) := by
  have hpos : 0 < dom0.length := List.length_pos.mpr h
  have hf : ∀ q ∈ rasterPairs,
      (get2 (List.replicate CHUNK_TILE_LENGTH (List.replicate CHUNK_TILE_LENGTH dom0))
        q.1 q.2 []).length = dom0.length := by
    intro q hq
    obtain ⟨h1, h2⟩ := rasterPairs_bounds q hq
    rw [get2_replicate _ _ _ _ h1 h2]
  have h00 : (0, 0) ∈ rasterPairs := by decide
  cases hle : lowestEntropy
      (List.replicate CHUNK_TILE_LENGTH (List.replicate CHUNK_TILE_LENGTH dom0)) with
  | none =>
    have hz := lowestFold_none hle (0, 0) h00
    rw [hf (0, 0) h00] at hz
    omega
  | some p =>
    obtain ⟨hp, pre, post, hdec, hpre, hpost⟩ := lowestEntropy_some hle
    have hpmem : p ∈ rasterPairs := by
      rw [hdec]
      exact List.mem_append_right _ (List.mem_cons_self _ _)
    cases pre with
    | nil =>
      have hh : rasterPairs.head? = some p := by rw [hdec]; rfl
      have hh0 : rasterPairs.head? = some (0, 0) := by decide
      rw [hh0] at hh
      injection hh with hh
      rw [hh]
    | cons q pre =>
      have hq : q ∈ rasterPairs := by
        rw [hdec]
        exact List.mem_append_left _ (List.mem_cons_self _ _)
      rcases hpre q (List.mem_cons_self _ _) with h0 | h0
      · rw [hf q hq] at h0
        omega
      · rw [hf q hq, hf p hpmem] at h0
        omega

/-! ## Loop termination by measure -/

theorem loopF_stable {σ ι : Type} (pick : σ → Option ι) (step : σ → ι → σ) (fin : σ → σ)
    (P : σ → Prop) (μ : σ → Nat)
    (hP : ∀ st i, P st → pick st = some i → P (step st i))
    (hdec : ∀ st i, P st → pick st = some i → μ (step st i) < μ st) :
    ∀ (m : Nat) (st : σ), P st → μ st ≤ m → ∀ n, m + 1 ≤ n →
      loopF pick step fin n st = loopF pick step fin (m + 1) st := by
  intro m
  induction m with
  | zero =>
    intro st hPst hmu n hn
    obtain ⟨k, rfl⟩ : ∃ k, n = k + 1 := ⟨n - 1, by omega⟩
    cases hp : pick st with
    | none => simp [loopF, hp]
    | some i => exact absurd (hdec st i hPst hp) (by omega)
  | succ m ih =>
    intro st hPst hmu n hn
    obtain ⟨k, rfl⟩ : ∃ k, n = k + 1 := ⟨n - 1, by omega⟩
    cases hp : pick st with
    | none => simp [loopF, hp]
    | some i =>
      have h1 : loopF pick step fin (k + 1) st = loopF pick step fin k (step st i) := by
        simp [loopF, hp]
      have h2 : loopF pick step fin (m + 1 + 1) st =
          loopF pick step fin (m + 1) (step st i) := by
        simp [loopF, hp]
      rw [h1, h2]
      exact ih (step st i) (hP st i hPst hp)
        (by have := hdec st i hPst hp; omega) k (by omega)

theorem countP_lt_countP {ι : Type} {l : List ι} {f g : ι → Bool}
    (himp : ∀ j ∈ l, g j = true → f j = true) {i : ι} (hi : i ∈ l)
    (hfi : f i = true) (hgi : g i = false) :
    l.countP g < l.countP f := by
  induction l with
  | nil => cases hi
  | cons a l ih =>
    rw [List.countP_cons, List.countP_cons]
    have hmono : l.countP g ≤ l.countP f := by
      apply List.countP_mono_left
      intro j hj
      exact himp j (List.mem_cons_of_mem _ hj)
    rcases List.mem_cons.mp hi with rfl | hi2
    · rw [hgi, hfi]
      show List.countP g l + 0 < List.countP f l + 1
      omega
    · have hlt := ih (fun j hj => himp j (List.mem_cons_of_mem _ hj)) hi2
      by_cases hga : g a = true
      · rw [if_pos hga, if_pos (himp a (List.mem_cons_self _ _) hga)]
        omega
      · rw [if_neg hga]
        by_cases hfa : f a = true
        · rw [if_pos hfa]
          omega
        · rw [if_neg hfa]
          omega

theorem not_isEmpty_iff {α : Type} (l : List α) : ((!l.isEmpty) = true) ↔ l ≠ [] := by
  cases l <;> simp

/-- Number of interior cells whose domain is still nonempty. -/
def wfcMeasure (st : WfcState) : Nat :=
  rasterPairs.countP fun q => !(get2 st.cmap q.1 q.2 []).isEmpty

/-- Number of ring cells whose domain is still nonempty. -/
def stitchMeasure (st : StitchState) : Nat :=
  (List.range (4 * CHUNK_TILE_LENGTH + 4)).countP fun i => !(st.cmap.getD i []).isEmpty

theorem wfcStep_wf (s : SchematicAsset) (draw : Nat → Nat) (st : WfcState)
    (p : Nat × Nat) (h : WFG st.tiles) : WFG (wfcStep s draw st p).tiles :=
  wfg_set2 _ _ _ _ h

theorem wfcStep_measure (s : SchematicAsset) (draw : Nat → Nat) (st : WfcState)
    (p : Nat × Nat) (hwf : WFG st.tiles) (hp : lowestEntropy st.cmap = some p) :
    wfcMeasure (wfcStep s draw st p) < wfcMeasure st := by
  obtain ⟨hpos, pre, post, hdec, -, -⟩ := lowestEntropy_some hp
  obtain ⟨hx, hy⟩ := lowestEntropy_mem hp
  have hmem : p ∈ rasterPairs := by
    rw [hdec]
    exact List.mem_append_right _ (List.mem_cons_self _ _)
  apply countP_lt_countP (i := p)
  · intro q hq hne
    rw [not_isEmpty_iff] at hne ⊢
    intro hnil
    rcases List.exists_mem_of_ne_nil _ hne with ⟨t, ht⟩
    have := ucm_subset s (wfcStep s draw st p).tiles st.cmap q.1 q.2 ht
    rw [hnil] at this
    cases this
  · exact hmem
  · rw [not_isEmpty_iff]
    intro hnil
    rw [hnil] at hpos
    cases hpos
  · have htile : get2 (wfcStep s draw st p).tiles p.1 p.2 none =
        collapseTile st.cmap draw p :=
      get2_set2_self _ _ _ _ _ hwf hx hy
    have hclear : get2 (wfcStep s draw st p).cmap p.1 p.2 [] = [] := by
      rw [show (wfcStep s draw st p).cmap =
          updateConstraintMap s (wfcStep s draw st p).tiles st.cmap from rfl,
        ucm_get _ _ _ _ _ hx hy]
      exact updateCell_of_isSome _ (by rw [htile]; rfl)
    rw [hclear]
    rfl

theorem wfcLoop_stable (s : SchematicAsset) (draw : Nat → Nat) (st : WfcState)
    (hwf : WFG st.tiles) (n : Nat)
    (hn : CHUNK_TILE_LENGTH * CHUNK_TILE_LENGTH + 1 ≤ n) :
    wfcLoop s draw n st = wfcLoop s draw (CHUNK_TILE_LENGTH * CHUNK_TILE_LENGTH + 1) st := by
  have hmu : wfcMeasure st ≤ 64 := by
    have h1 : wfcMeasure st ≤ rasterPairs.length := List.countP_le_length _
    have h2 : rasterPairs.length = 64 := by decide
    omega
  have e : CHUNK_TILE_LENGTH * CHUNK_TILE_LENGTH = 64 := rfl
  rw [e] at hn ⊢
  exact loopF_stable _ _ _ (fun st => WFG st.tiles) wfcMeasure
    (fun st i h hp => wfcStep_wf s draw st i h)
    (fun st i h hp => wfcStep_measure s draw st i h hp)
    64 st hwf hmu n hn

/-- The stitcher state stays a well-formed `4L + 4` ring. -/
def StitchWF (st : StitchState) : Prop :=
  st.cmap.length = 4 * CHUNK_TILE_LENGTH + 4 ∧ st.tiles.length = 4 * CHUNK_TILE_LENGTH + 4

theorem stitchStep_wf (s : SchematicAsset) (coords : Int × Int) (chunk : List TTile)
    (adj : Adjacencies) (drawE : Nat → Nat) (st : StitchState) (i : Nat)
    (h : StitchWF st) : StitchWF (stitchStep s coords chunk adj drawE st i) := by
  obtain ⟨h1, h2⟩ := h
  constructor
  · rw [show (stitchStep s coords chunk adj drawE st i).cmap =
      ringUpdate s coords chunk adj ((stitchStep s coords chunk adj drawE st i).tiles) st.cmap
      from rfl, ringUpdate_length, h1]
  · rw [show (stitchStep s coords chunk adj drawE st i).tiles =
      st.tiles.set i (stitchCollapseTile st.cmap drawE i) from rfl, List.length_set, h2]

theorem stitchStep_measure (s : SchematicAsset) (coords : Int × Int) (chunk : List TTile)
    (adj : Adjacencies) (drawE : Nat → Nat) (st : StitchState) (i : Nat)
    (hwf : StitchWF st) (hp : ringLowestEntropy st.cmap = some i) :
    stitchMeasure (stitchStep s coords chunk adj drawE st i) < stitchMeasure st := by
  obtain ⟨hpos, hilt⟩ := ringLowestEntropy_some hp
  obtain ⟨hc, ht⟩ := hwf
  have hmem : i ∈ List.range (4 * CHUNK_TILE_LENGTH + 4) := by
    rw [List.mem_range]
    omega
  apply countP_lt_countP (i := i)
  · intro q hq hne
    rw [not_isEmpty_iff] at hne ⊢
    intro hnil
    rcases List.exists_mem_of_ne_nil _ hne with ⟨t, htm⟩
    have := ringUpdate_subset s coords chunk adj
      ((stitchStep s coords chunk adj drawE st i).tiles) st.cmap q htm
    rw [hnil] at this
    cases this
  · exact hmem
  · rw [not_isEmpty_iff]
    intro hnil
    rw [hnil] at hpos
    cases hpos
  · have htile : ((stitchStep s coords chunk adj drawE st i).tiles).getD i none =
        stitchCollapseTile st.cmap drawE i :=
      getD_set_self _ _ _ _ (by omega)
    have hclear : ((stitchStep s coords chunk adj drawE st i).cmap).getD i [] = [] := by
      rw [show (stitchStep s coords chunk adj drawE st i).cmap =
        ringUpdate s coords chunk adj ((stitchStep s coords chunk adj drawE st i).tiles) st.cmap
        from rfl, ringUpdate_get _ _ _ _ _ _ _ hilt]
      exact ringUpdateCell_of_isSome _ (by rw [htile]; rfl)
    rw [hclear]
    rfl

theorem stitchLoop_stable (s : SchematicAsset) (coords : Int × Int) (chunk : List TTile)
    (adj : Adjacencies) (drawE : Nat → Nat) (st : StitchState)
    (hwf : StitchWF st) (n : Nat) (hn : 4 * CHUNK_TILE_LENGTH + 4 + 1 ≤ n) :
    stitchLoop s coords chunk adj drawE n st =
      stitchLoop s coords chunk adj drawE (4 * CHUNK_TILE_LENGTH + 4 + 1) st := by
  have hmu : stitchMeasure st ≤ 36 := by
    have h1 : stitchMeasure st ≤ (List.range (4 * CHUNK_TILE_LENGTH + 4)).length :=
      List.countP_le_length _
    have h2 : (List.range (4 * CHUNK_TILE_LENGTH + 4)).length = 36 := by decide
    omega
  have e : 4 * CHUNK_TILE_LENGTH + 4 = 36 := rfl
  rw [e] at hn ⊢
  exact loopF_stable _ _ _ StitchWF stitchMeasure
    (fun st i h hp => stitchStep_wf s coords chunk adj drawE st i h)
    (fun st i h hp => stitchStep_measure s coords chunk adj drawE st i h hp)
    36 st hwf hmu n hn

/-! ## The interior collapse invariant -/

theorem wfg_get2_default {α : Type} (g : List (List α)) (hg : WFG g) (x y : Nat) (d : α)
    (h : ¬ (x < CHUNK_TILE_LENGTH ∧ y < CHUNK_TILE_LENGTH)) : get2 g x y d = d := by
  obtain ⟨h1, h2⟩ := hg
  rcases Nat.lt_or_ge x CHUNK_TILE_LENGTH with hx | hx
  · rcases Nat.lt_or_ge y CHUNK_TILE_LENGTH with hy | hy
    · exact absurd ⟨hx, hy⟩ h
    · rw [get2]
      exact getD_of_length_le _ _ _
        (by rw [h2 _ (getD_mem _ _ _ (by rw [h1]; exact hx))]; exact hy)
  · have hrow : g.getD x [] = [] := getD_of_length_le _ _ _ (by rw [h1]; exact hx)
    rw [get2, hrow]
    cases y <;> rfl

theorem get2_some_bounds {g : TGrid} (hg : WFG g) {x y : Nat} {v : Nat × Nat}
    (h : get2 g x y none = some v) :
    x < CHUNK_TILE_LENGTH ∧ y < CHUNK_TILE_LENGTH := by
  by_contra hc
  rw [wfg_get2_default g hg x y none hc] at h
  cases h

/-- Post-collapse horizontal adjacency: for any two horizontally adjacent
collapsed cells, at least one of the two directed checks holds (the one
oriented from the earlier-collapsed cell to the later one). -/
def eastOk (s : SchematicAsset) (g : TGrid) : Prop :=
  ∀ x y a b, get2 g x y none = some a → get2 g (x + 1) y none = some b →
    b.1 ∈ (lookupTile s a.1).east ∨ a.1 ∈ (lookupTile s b.1).west

/-- Post-collapse vertical adjacency, analogous to `eastOk`. -/
def northOk (s : SchematicAsset) (g : TGrid) : Prop :=
  ∀ x y a b, get2 g x y none = some a → get2 g x (y + 1) none = some b →
    b.1 ∈ (lookupTile s a.1).north ∨ a.1 ∈ (lookupTile s b.1).south

/-- Invariant maintained by every iteration of the interior collapse loop,
from the end of the first iteration on (each state's constraint map is the
result of an `update_constraint_map` pass over its tile grid). -/
structure WfcInv (s : SchematicAsset) (dom0 : List Nat) (st : WfcState) : Prop where
  wf_t : WFG st.tiles
  east_ok : eastOk s st.tiles
  north_ok : northOk s st.tiles
  nz_none : ∀ x y, get2 st.cmap x y [] ≠ [] → get2 st.tiles x y none = none
  dom_sub : ∀ x y, get2 st.cmap x y [] ⊆ dom0
  dom_len : ∀ x y, (get2 st.cmap x y []).length ≤ dom0.length
  con_w : ∀ x y a, 1 ≤ x → get2 st.tiles (x - 1) y none = some a →
    get2 st.cmap x y [] ⊆ (lookupTile s a.1).east
  con_s : ∀ x y a, 1 ≤ y → get2 st.tiles x (y - 1) none = some a →
    get2 st.cmap x y [] ⊆ (lookupTile s a.1).north
  con_e : ∀ x y a, x + 1 < CHUNK_TILE_LENGTH → get2 st.tiles (x + 1) y none = some a →
    get2 st.cmap x y [] ⊆ (lookupTile s a.1).west
  con_n : ∀ x y a, y + 1 < CHUNK_TILE_LENGTH → get2 st.tiles x (y + 1) none = some a →
    get2 st.cmap x y [] ⊆ (lookupTile s a.1).south
  tiles_in : ∀ x y v, get2 st.tiles x y none = some v → v.1 ∈ dom0

theorem ucm_nz_none (s : SchematicAsset) (tiles : TGrid) (cmap : CGrid) :
    ∀ x y, get2 (updateConstraintMap s tiles cmap) x y [] ≠ [] →
      get2 tiles x y none = none := by
  intro x y hne
  by_cases hb : x < CHUNK_TILE_LENGTH ∧ y < CHUNK_TILE_LENGTH
  · rw [ucm_get _ _ _ _ _ hb.1 hb.2] at hne
    exact updateCell_ne_nil hne
  · exact absurd (ucm_oob _ _ _ _ _ hb) hne

theorem ucm_con_w (s : SchematicAsset) (tiles : TGrid) (cmap : CGrid) :
    ∀ x y a, 1 ≤ x → get2 tiles (x - 1) y none = some a →
      get2 (updateConstraintMap s tiles cmap) x y [] ⊆ (lookupTile s a.1).east := by
  intro x y a hx ha t ht
  by_cases hb : x < CHUNK_TILE_LENGTH ∧ y < CHUNK_TILE_LENGTH
  · rw [ucm_get _ _ _ _ _ hb.1 hb.2] at ht
    exact updateCell_mem_west hx ha ht
  · rw [ucm_oob _ _ _ _ _ hb] at ht
    cases ht

theorem ucm_con_s (s : SchematicAsset) (tiles : TGrid) (cmap : CGrid) :
    ∀ x y a, 1 ≤ y → get2 tiles x (y - 1) none = some a →
      get2 (updateConstraintMap s tiles cmap) x y [] ⊆ (lookupTile s a.1).north := by
  intro x y a hy ha t ht
  by_cases hb : x < CHUNK_TILE_LENGTH ∧ y < CHUNK_TILE_LENGTH
  · rw [ucm_get _ _ _ _ _ hb.1 hb.2] at ht
    exact updateCell_mem_south hy ha ht
  · rw [ucm_oob _ _ _ _ _ hb] at ht
    cases ht

theorem ucm_con_e (s : SchematicAsset) (tiles : TGrid) (cmap : CGrid) :
    ∀ x y a, x + 1 < CHUNK_TILE_LENGTH → get2 tiles (x + 1) y none = some a →
      get2 (updateConstraintMap s tiles cmap) x y [] ⊆ (lookupTile s a.1).west := by
  intro x y a hx ha t ht
  by_cases hb : x < CHUNK_TILE_LENGTH ∧ y < CHUNK_TILE_LENGTH
  · rw [ucm_get _ _ _ _ _ hb.1 hb.2] at ht
    exact updateCell_mem_east hx ha ht
  · rw [ucm_oob _ _ _ _ _ hb] at ht
    cases ht

theorem ucm_con_n (s : SchematicAsset) (tiles : TGrid) (cmap : CGrid) :
    ∀ x y a, y + 1 < CHUNK_TILE_LENGTH → get2 tiles x (y + 1) none = some a →
      get2 (updateConstraintMap s tiles cmap) x y [] ⊆ (lookupTile s a.1).south := by
  intro x y a hy ha t ht
  by_cases hb : x < CHUNK_TILE_LENGTH ∧ y < CHUNK_TILE_LENGTH
  · rw [ucm_get _ _ _ _ _ hb.1 hb.2] at ht
    exact updateCell_mem_north hy ha ht
  · rw [ucm_oob _ _ _ _ _ hb] at ht
    cases ht

theorem ucm_dom_len (s : SchematicAsset) (tiles : TGrid) (cmap : CGrid) (dom0 : List Nat)
    (hold : ∀ x y, (get2 cmap x y []).length ≤ dom0.length) :
    ∀ x y, (get2 (updateConstraintMap s tiles cmap) x y []).length ≤ dom0.length := by
  intro x y
  by_cases hb : x < CHUNK_TILE_LENGTH ∧ y < CHUNK_TILE_LENGTH
  · rw [ucm_get _ _ _ _ _ hb.1 hb.2]
    exact Nat.le_trans (updateCell_length _ _ _ _ _) (hold x y)
  · rw [ucm_oob _ _ _ _ _ hb]
    exact Nat.zero_le _

theorem wfcStep_inv (s : SchematicAsset) (dom0 : List Nat) (draw : Nat → Nat)
    (st : WfcState) (p : Nat × Nat)
    (hdraw : ∀ n, 0 < n → draw n < n) (hlen : dom0.length < 256)
    (hinv : WfcInv s dom0 st) (hp : lowestEntropy st.cmap = some p) :
    WfcInv s dom0 (wfcStep s draw st p) := by
  obtain ⟨hx, hy⟩ := lowestEntropy_mem hp
  have hpos := (lowestEntropy_some hp).1
  have hmod : (get2 st.cmap p.1 p.2 []).length % 256 = (get2 st.cmap p.1 p.2 []).length :=
    Nat.mod_eq_of_lt (Nat.lt_of_le_of_lt (hinv.dom_len p.1 p.2) hlen)
  have hvmem : (get2 st.cmap p.1 p.2 []).getD
      (draw ((get2 st.cmap p.1 p.2 []).length % 256)) 0 ∈ get2 st.cmap p.1 p.2 [] := by
    rw [hmod]
    exact getD_mem _ _ _ (hdraw _ hpos)
  have hct : collapseTile st.cmap draw p =
      some ((get2 st.cmap p.1 p.2 []).getD
        (draw ((get2 st.cmap p.1 p.2 []).length % 256)) 0, 1) := rfl
  have htiles : (wfcStep s draw st p).tiles =
      set2 st.tiles p.1 p.2 (collapseTile st.cmap draw p) := rfl
  have hwf2 : WFG (wfcStep s draw st p).tiles := by
    rw [htiles]
    exact wfg_set2 _ _ _ _ hinv.wf_t
  have hTat : get2 (wfcStep s draw st p).tiles p.1 p.2 none =
      some ((get2 st.cmap p.1 p.2 []).getD
        (draw ((get2 st.cmap p.1 p.2 []).length % 256)) 0, 1) := by
    rw [htiles, get2_set2_self _ _ _ _ _ hinv.wf_t hx hy, hct]
  have hTne : ∀ u w, ¬ (p.1 = u ∧ p.2 = w) →
      get2 (wfcStep s draw st p).tiles u w none = get2 st.tiles u w none := by
    intro u w hne
    rw [htiles]
    exact get2_set2_ne _ _ _ _ _ _ _ hne
  have hcmap : (wfcStep s draw st p).cmap =
      updateConstraintMap s (wfcStep s draw st p).tiles st.cmap := rfl
  refine ⟨hwf2, ?_, ?_, ?_, ?_, ?_, ?_, ?_, ?_, ?_, ?_⟩
  · -- east_ok
    intro u w a b hA hB
    by_cases h1 : p.1 = u ∧ p.2 = w
    · obtain ⟨e1, e2⟩ := h1
      rw [← e1, ← e2] at hA
      have ha2 := Option.some.inj (hTat.symm.trans hA)
      have hB2 : get2 st.tiles (u + 1) w none = some b := by
        rw [← hTne (u + 1) w (fun hc => by obtain ⟨hc1, -⟩ := hc; omega)]
        exact hB
      have hub : u + 1 < CHUNK_TILE_LENGTH := (get2_some_bounds hinv.wf_t hB2).1
      have hsub := hinv.con_e p.1 p.2 b (by rw [e1]; exact hub) (by rw [e1, e2]; exact hB2)
      right
      rw [← ha2]
      exact hsub hvmem
    · by_cases h2 : p.1 = u + 1 ∧ p.2 = w
      · obtain ⟨e1, e2⟩ := h2
        rw [← e1, ← e2] at hB
        have hb2 := Option.some.inj (hTat.symm.trans hB)
        have hA2 : get2 st.tiles u w none = some a := by
          rw [← hTne u w h1]
          exact hA
        have hsub := hinv.con_w p.1 p.2 a (by rw [e1]; omega)
          (by rw [e1, e2]; simpa using hA2)
        left
        rw [← hb2]
        exact hsub hvmem
      · rw [hTne u w h1] at hA
        rw [hTne (u + 1) w h2] at hB
        exact hinv.east_ok u w a b hA hB
  · -- north_ok
    intro u w a b hA hB
    by_cases h1 : p.1 = u ∧ p.2 = w
    · obtain ⟨e1, e2⟩ := h1
      rw [← e1, ← e2] at hA
      have ha2 := Option.some.inj (hTat.symm.trans hA)
      have hB2 : get2 st.tiles u (w + 1) none = some b := by
        rw [← hTne u (w + 1) (fun hc => by obtain ⟨-, hc2⟩ := hc; omega)]
        exact hB
      have hwb : w + 1 < CHUNK_TILE_LENGTH := (get2_some_bounds hinv.wf_t hB2).2
      have hsub := hinv.con_n p.1 p.2 b (by rw [e2]; exact hwb) (by rw [e1, e2]; exact hB2)
      right
      rw [← ha2]
      exact hsub hvmem
    · by_cases h2 : p.1 = u ∧ p.2 = w + 1
      · obtain ⟨e1, e2⟩ := h2
        rw [← e1, ← e2] at hB
        have hb2 := Option.some.inj (hTat.symm.trans hB)
        have hA2 : get2 st.tiles u w none = some a := by
          rw [← hTne u w h1]
          exact hA
        have hsub := hinv.con_s p.1 p.2 a (by rw [e2]; omega)
          (by rw [e1, e2]; simpa using hA2)
        left
        rw [← hb2]
        exact hsub hvmem
      · rw [hTne u w h1] at hA
        rw [hTne u (w + 1) h2] at hB
        exact hinv.north_ok u w a b hA hB
  · rw [hcmap]
    exact ucm_nz_none s _ st.cmap
  · intro u w t ht
    exact hinv.dom_sub u w (ucm_subset s _ st.cmap u w ht)
  · rw [hcmap]
    exact ucm_dom_len s _ st.cmap dom0 hinv.dom_len
  · rw [hcmap]
    exact ucm_con_w s _ st.cmap
  · rw [hcmap]
    exact ucm_con_s s _ st.cmap
  · rw [hcmap]
    exact ucm_con_e s _ st.cmap
  · rw [hcmap]
    exact ucm_con_n s _ st.cmap
  · -- tiles_in
    intro u w v hv
    by_cases h1 : p.1 = u ∧ p.2 = w
    · obtain ⟨e1, e2⟩ := h1
      rw [← e1, ← e2] at hv
      have hv2 := Option.some.inj (hTat.symm.trans hv)
      rw [← hv2]
      exact hinv.dom_sub p.1 p.2 hvmem
    · rw [hTne u w h1] at hv
      exact hinv.tiles_in u w v hv

theorem wfcFinish_inv (s : SchematicAsset) (dom0 : List Nat) (st : WfcState)
    (hinv : WfcInv s dom0 st) : WfcInv s dom0 (wfcFinish s st) := by
  have ht : (wfcFinish s st).tiles = st.tiles := rfl
  have hc : (wfcFinish s st).cmap = updateConstraintMap s st.tiles st.cmap := rfl
  refine ⟨?_, ?_, ?_, ?_, ?_, ?_, ?_, ?_, ?_, ?_, ?_⟩ <;> (try rw [ht]) <;> (try rw [hc])
  · exact hinv.wf_t
  · exact hinv.east_ok
  · exact hinv.north_ok
  · exact ucm_nz_none s st.tiles st.cmap
  · intro u w t htm
    exact hinv.dom_sub u w (ucm_subset s st.tiles st.cmap u w htm)
  · exact ucm_dom_len s st.tiles st.cmap dom0 hinv.dom_len
  · exact ucm_con_w s st.tiles st.cmap
  · exact ucm_con_s s st.tiles st.cmap
  · exact ucm_con_e s st.tiles st.cmap
  · exact ucm_con_n s st.tiles st.cmap
  · exact hinv.tiles_in

theorem wfcLoop_succ_some (s : SchematicAsset) (draw : Nat → Nat) (n : Nat)
    (st : WfcState) (i : Nat × Nat) (hp : lowestEntropy st.cmap = some i) :
    wfcLoop s draw (n + 1) st = wfcLoop s draw n (wfcStep s draw st i) := by
  simp [wfcLoop, loopF, hp]

theorem wfcLoop_succ_none (s : SchematicAsset) (draw : Nat → Nat) (n : Nat)
    (st : WfcState) (hp : lowestEntropy st.cmap = none) :
    wfcLoop s draw (n + 1) st = wfcFinish s st := by
  simp [wfcLoop, loopF, hp]

theorem wfcLoop_inv (s : SchematicAsset) (dom0 : List Nat) (draw : Nat → Nat)
    (hdraw : ∀ n, 0 < n → draw n < n) (hlen : dom0.length < 256) :
    ∀ (n : Nat) (st : WfcState), WfcInv s dom0 st →
      WfcInv s dom0 (wfcLoop s draw n st) := by
  intro n
  induction n with
  | zero => exact fun st h => h
  | succ n ih =>
    intro st h
    cases hp : lowestEntropy st.cmap with
    | none =>
      have he : wfcLoop s draw (n + 1) st = wfcFinish s st := by
        simp [wfcLoop, loopF, hp]
      rw [he]
      exact wfcFinish_inv s dom0 st h
    | some i =>
      have he : wfcLoop s draw (n + 1) st = wfcLoop s draw n (wfcStep s draw st i) := by
        simp [wfcLoop, loopF, hp]
      rw [he]
      exact ih _ (wfcStep_inv s dom0 draw st i hdraw hlen h hp)

theorem cmap_init_sub (dom0 : List Nat) (x y : Nat) :
    get2 (List.replicate CHUNK_TILE_LENGTH (List.replicate CHUNK_TILE_LENGTH dom0)) x y [] ⊆
      dom0 := by
  by_cases hb : x < CHUNK_TILE_LENGTH ∧ y < CHUNK_TILE_LENGTH
  · rw [get2_replicate _ _ _ _ hb.1 hb.2]
    exact List.Subset.refl _
  · rw [wfg_get2_default _ (wfg_replicate _ (by simp)) x y [] hb]
    exact List.nil_subset _

theorem cmap_init_len (dom0 : List Nat) (x y : Nat) :
    (get2 (List.replicate CHUNK_TILE_LENGTH (List.replicate CHUNK_TILE_LENGTH dom0))
      x y []).length ≤ dom0.length := by
  by_cases hb : x < CHUNK_TILE_LENGTH ∧ y < CHUNK_TILE_LENGTH
  · rw [get2_replicate _ _ _ _ hb.1 hb.2]
  · rw [wfg_get2_default _ (wfg_replicate _ (by simp)) x y [] hb]
    exact Nat.zero_le _

theorem wfcBase_inv (s : SchematicAsset) (dom0 keys : List Nat) (draw : Nat → Nat)
    (hdraw : ∀ n, 0 < n → draw n < n) (hlen : dom0.length < 256) (hne : dom0 ≠ []) :
    WfcInv s dom0 (wfcStep s draw (wfcInit dom0 keys draw) (0, 0)) := by
  have h08 : (0 : Nat) < CHUNK_TILE_LENGTH := by decide
  have hdom00 : get2 (wfcInit dom0 keys draw).cmap 0 0 [] = dom0 :=
    get2_replicate _ _ _ _ h08 h08
  have hpos : 0 < dom0.length := List.length_pos.mpr hne
  have hmod : dom0.length % 256 = dom0.length := Nat.mod_eq_of_lt hlen
  have hvmem : dom0.getD (draw (dom0.length % 256)) 0 ∈ dom0 := by
    rw [hmod]
    exact getD_mem _ _ _ (hdraw _ hpos)
  have hwf_t0 : WFG (wfcInit dom0 keys draw).tiles :=
    wfg_set2 _ _ _ _ (wfg_replicate _ (by simp))
  have hct : collapseTile (wfcInit dom0 keys draw).cmap draw (0, 0) =
      some (dom0.getD (draw (dom0.length % 256)) 0, 1) := by
    show some ((get2 (wfcInit dom0 keys draw).cmap 0 0 []).getD
      (draw ((get2 (wfcInit dom0 keys draw).cmap 0 0 []).length % 256)) 0, 1) = _
    rw [hdom00]
  have htiles : (wfcStep s draw (wfcInit dom0 keys draw) (0, 0)).tiles =
      set2 (wfcInit dom0 keys draw).tiles 0 0
        (collapseTile (wfcInit dom0 keys draw).cmap draw (0, 0)) := rfl
  have hwf1 : WFG (wfcStep s draw (wfcInit dom0 keys draw) (0, 0)).tiles := by
    rw [htiles]
    exact wfg_set2 _ _ _ _ hwf_t0
  have hTat : get2 (wfcStep s draw (wfcInit dom0 keys draw) (0, 0)).tiles 0 0 none =
      some (dom0.getD (draw (dom0.length % 256)) 0, 1) := by
    rw [htiles, get2_set2_self _ _ _ _ _ hwf_t0 h08 h08, hct]
  have hTne : ∀ u w, ¬ ((0 : Nat) = u ∧ (0 : Nat) = w) →
      get2 (wfcStep s draw (wfcInit dom0 keys draw) (0, 0)).tiles u w none = none := by
    intro u w hne2
    rw [htiles, get2_set2_ne _ _ _ _ _ _ _ hne2]
    show get2 (set2 (List.replicate CHUNK_TILE_LENGTH
      (List.replicate CHUNK_TILE_LENGTH none)) 0 0 (scratch keys draw)) u w none = none
    rw [get2_set2_ne _ _ _ _ _ _ _ hne2]
    by_cases hb : u < CHUNK_TILE_LENGTH ∧ w < CHUNK_TILE_LENGTH
    · exact get2_replicate _ _ _ _ hb.1 hb.2
    · exact wfg_get2_default _ (wfg_replicate _ (by simp)) u w none hb
  have hcmap : (wfcStep s draw (wfcInit dom0 keys draw) (0, 0)).cmap =
      updateConstraintMap s (wfcStep s draw (wfcInit dom0 keys draw) (0, 0)).tiles
        (wfcInit dom0 keys draw).cmap := rfl
  refine ⟨hwf1, ?_, ?_, ?_, ?_, ?_, ?_, ?_, ?_, ?_, ?_⟩
  · intro u w a b hA hB
    by_cases h1 : (0 : Nat) = u ∧ (0 : Nat) = w
    · rw [hTne (u + 1) w (fun hc => by obtain ⟨hc1, -⟩ := hc; omega)] at hB
      cases hB
    · rw [hTne u w h1] at hA
      cases hA
  · intro u w a b hA hB
    by_cases h1 : (0 : Nat) = u ∧ (0 : Nat) = w
    · rw [hTne u (w + 1) (fun hc => by obtain ⟨-, hc2⟩ := hc; omega)] at hB
      cases hB
    · rw [hTne u w h1] at hA
      cases hA
  · rw [hcmap]
    exact ucm_nz_none s _ _
  · intro u w t ht
    exact cmap_init_sub dom0 u w (ucm_subset s _ _ u w ht)
  · rw [hcmap]
    exact ucm_dom_len s _ _ dom0 (cmap_init_len dom0)
  · rw [hcmap]
    exact ucm_con_w s _ _
  · rw [hcmap]
    exact ucm_con_s s _ _
  · rw [hcmap]
    exact ucm_con_e s _ _
  · rw [hcmap]
    exact ucm_con_n s _ _
  · intro u w v hv
    by_cases h1 : (0 : Nat) = u ∧ (0 : Nat) = w
    · obtain ⟨e1, e2⟩ := h1
      rw [← e1, ← e2] at hv
      have hv2 := Option.some.inj (hTat.symm.trans hv)
      rw [← hv2]
      exact hvmem
    · rw [hTne u w h1] at hv
      cases hv

theorem wfcRun_inv (s : SchematicAsset) (dom0 keys : List Nat) (draw : Nat → Nat)
    (hdraw : ∀ n, 0 < n → draw n < n) (hlen : dom0.length < 256) (hne : dom0 ≠ []) :
    WfcInv s dom0 (wfcLoop s draw (CHUNK_TILE_LENGTH * CHUNK_TILE_LENGTH + 1)
      (wfcInit dom0 keys draw)) := by
  have hpick : lowestEntropy (wfcInit dom0 keys draw).cmap = some (0, 0) :=
    lowestEntropy_replicate dom0 hne
  rw [wfcLoop_succ_some s draw _ _ _ hpick]
  exact wfcLoop_inv s dom0 draw hdraw hlen _ _
    (wfcBase_inv s dom0 keys draw hdraw hlen hne)

/-! ## Claim theorems -/

theorem wfcInit_tiles_ne (dom0 keys : List Nat) (draw : Nat → Nat) :
    ∀ u w, ¬ ((0 : Nat) = u ∧ (0 : Nat) = w) →
      get2 (wfcInit dom0 keys draw).tiles u w none = none := by
  intro u w hne
  show get2 (set2 (List.replicate CHUNK_TILE_LENGTH
    (List.replicate CHUNK_TILE_LENGTH none)) 0 0 (scratch keys draw)) u w none = none
  rw [get2_set2_ne _ _ _ _ _ _ _ hne]
  by_cases hb : u < CHUNK_TILE_LENGTH ∧ w < CHUNK_TILE_LENGTH
  · exact get2_replicate _ _ _ _ hb.1 hb.2
  · exact wfg_get2_default _ (wfg_replicate _ (by simp)) u w none hb

/-- **C1 (amended).**  For every interior grid returned by
`WaveFunctionCollapse::collapse` and every pair of 4-adjacent collapsed
cells, at least one of the two directed checks holds: the eastward cell's
identifier is in the westward cell's east allow-list, or the westward
cell's identifier is in the eastward cell's west allow-list — namely the
check oriented from the earlier-collapsed cell of the pair to the later
one (and symmetrically north/south).  The claim's original both-directions
form fails for asymmetric schematics (`C1_counterexample`). -/
theorem C1_adjacency_amended (s : SchematicAsset) (dom0 keys : List Nat)
    (draw : Nat → Nat) (hdraw : ∀ n, 0 < n → draw n < n)
    (hlen : dom0.length < 256) :
    eastOk s (wfcCollapse s dom0 keys draw) ∧
    northOk s (wfcCollapse s dom0 keys draw) := by
  by_cases hne : dom0 = []
  · subst hne
    have hnone : lowestEntropy (wfcInit [] keys draw).cmap = none := by
      cases hres : lowestEntropy (wfcInit [] keys draw).cmap with
      | none => rfl
      | some i =>
        have h0 := (lowestEntropy_some hres).1
        have hsub : get2 (wfcInit [] keys draw).cmap i.1 i.2 [] ⊆ ([] : List Nat) :=
          cmap_init_sub [] i.1 i.2
        rw [List.subset_nil.mp hsub] at h0
        cases h0
    have he : wfcCollapse s [] keys draw = (wfcInit [] keys draw).tiles := by
      show (wfcLoop s draw (CHUNK_TILE_LENGTH * CHUNK_TILE_LENGTH + 1)
        (wfcInit [] keys draw)).tiles = _
      rw [wfcLoop_succ_none s draw _ _ hnone]
      rfl
    rw [he]
    constructor
    · intro u w a b hA hB
      by_cases h1 : (0 : Nat) = u ∧ (0 : Nat) = w
      · rw [wfcInit_tiles_ne [] keys draw (u + 1) w
          (fun hc => by obtain ⟨hc1, -⟩ := hc; omega)] at hB
        cases hB
      · rw [wfcInit_tiles_ne [] keys draw u w h1] at hA
        cases hA
    · intro u w a b hA hB
      by_cases h1 : (0 : Nat) = u ∧ (0 : Nat) = w
      · rw [wfcInit_tiles_ne [] keys draw u (w + 1)
          (fun hc => by obtain ⟨-, hc2⟩ := hc; omega)] at hB
        cases hB
      · rw [wfcInit_tiles_ne [] keys draw u w h1] at hA
        cases hA
  · have hinv := wfcRun_inv s dom0 keys draw hdraw hlen hne
    exact ⟨hinv.east_ok, hinv.north_ok⟩

/-- **C1 witness.**  The amended adjacency theorem applied to a concrete
run (the one-tile schematic, the constant-zero draw). -/
theorem C1_adjacency_amended_witness :
    eastOk oneTile (wfcCollapse oneTile [0] [0] drawZero) ∧
    northOk oneTile (wfcCollapse oneTile [0] [0] drawZero) :=
  C1_adjacency_amended oneTile [0] [0] drawZero (fun n h => h) (by decide)

/-- **C6 (amended).**  (1) Whenever `lowest_entropy` selects a cell, that
cell's domain size is nonzero and minimal among all nonzero domain sizes,
and the cell is the first one in the fixed raster order (`x` outer, `y`
inner) attaining that minimum: every raster-earlier cell has a zero or
strictly larger domain.  (2) When the scanned map is the result of an
`update_constraint_map` pass, the selected cell is moreover uncollapsed.
The claim's original form ("the chosen cell is an uncollapsed cell") fails
in the very first loop iteration, which re-collapses the already-collapsed
origin cell (`C6_counterexample`). -/
theorem C6_selection_amended :
    (∀ (cmap : CGrid) (p : Nat × Nat), lowestEntropy cmap = some p →
      0 < (get2 cmap p.1 p.2 []).length ∧
      ∃ pre post, rasterPairs = pre ++ p :: post ∧
        (∀ q ∈ pre, (get2 cmap q.1 q.2 []).length = 0 ∨
          (get2 cmap p.1 p.2 []).length < (get2 cmap q.1 q.2 []).length) ∧
        (∀ q ∈ post, (get2 cmap q.1 q.2 []).length = 0 ∨
          (get2 cmap p.1 p.2 []).length ≤ (get2 cmap q.1 q.2 []).length)) ∧
    (∀ (s : SchematicAsset) (tiles : TGrid) (cmap : CGrid) (p : Nat × Nat),
      lowestEntropy (updateConstraintMap s tiles cmap) = some p →
      get2 tiles p.1 p.2 none = none) := by
  constructor
  · exact fun cmap p h => lowestEntropy_some h
  · intro s tiles cmap p h
    have hpos := (lowestEntropy_some h).1
    apply ucm_nz_none s tiles cmap p.1 p.2
    intro hc
    rw [hc] at hpos
    cases hpos

set_option maxRecDepth 10000 in
/-- **C6 witness.**  The selection lemmas applied to the concrete map of
the second iteration of a one-tile run: the selected cell `(0, 1)` has a
nonzero domain and is uncollapsed. -/
theorem C6_selection_amended_witness :
    0 < (get2 exWfcState1.cmap 0 1 []).length ∧
    get2 exWfcState1.tiles 0 1 none = none :=
  ⟨(C6_selection_amended.1 exWfcState1.cmap (0, 1) (by decide)).1,
   C6_selection_amended.2 oneTile exWfcState1.tiles (wfcInit [0] [0] drawZero).cmap
     (0, 1) (by decide)⟩

/-- **C7.**  When a generated chunk is materialised by `create_chunks`,
every interior cell yields a spawned tile identifier: the identifier the
generator collapsed the cell to (an element of the schematic's key set)
when the cell is `Some`, and the schematic's `not_found` fallback when the
cell was left unresolved; no interior cell is left without an
identifier. -/
theorem C7_completeness (s : SchematicAsset) (dom0 keys : List Nat) (draw : Nat → Nat)
    (hdraw : ∀ n, 0 < n → draw n < n) (hlen : dom0.length < 256) (hne : dom0 ≠ [])
    (hkeys : ∀ t ∈ dom0, t ∈ s.tiles.map Prod.fst) :
    ∀ x y, x < CHUNK_TILE_LENGTH → y < CHUNK_TILE_LENGTH →
      (∃ v, get2 (wfcCollapse s dom0 keys draw) x y none = some v ∧
        get2 (createChunkTileIds s (wfcCollapse s dom0 keys draw)) x y 0 = v.1 ∧
        v.1 ∈ s.tiles.map Prod.fst) ∨
      (get2 (wfcCollapse s dom0 keys draw) x y none = none ∧
        get2 (createChunkTileIds s (wfcCollapse s dom0 keys draw)) x y 0 =
          s.not_found) := by
  intro x y hx hy
  have hids : get2 (createChunkTileIds s (wfcCollapse s dom0 keys draw)) x y 0 =
      match get2 (wfcCollapse s dom0 keys draw) x y none with
      | some t => t.1
      | none => s.not_found :=
    get2_mapGrid _ x y 0 hx hy
  have hinv := wfcRun_inv s dom0 keys draw hdraw hlen hne
  cases hv : get2 (wfcCollapse s dom0 keys draw) x y none with
  | some v =>
    left
    refine ⟨v, rfl, ?_, ?_⟩
    · rw [hids, hv]
    · exact hkeys _ (hinv.tiles_in x y v hv)
  | none =>
    right
    exact ⟨rfl, by rw [hids, hv]⟩

/-- **C7 witness.**  The completeness theorem applied to a concrete
one-tile run at cell `(0, 0)`. -/
theorem C7_completeness_witness :
    (∃ v, get2 (wfcCollapse oneTile [0] [0] drawZero) 0 0 none = some v ∧
      get2 (createChunkTileIds oneTile (wfcCollapse oneTile [0] [0] drawZero)) 0 0 0 = v.1 ∧
      v.1 ∈ oneTile.tiles.map Prod.fst) ∨
    (get2 (wfcCollapse oneTile [0] [0] drawZero) 0 0 none = none ∧
      get2 (createChunkTileIds oneTile (wfcCollapse oneTile [0] [0] drawZero)) 0 0 0 =
        oneTile.not_found) :=
  C7_completeness oneTile [0] [0] drawZero (fun n h => h) (by decide) (by decide)
    (by decide) 0 0 (by decide) (by decide)

/-- **C8.**  `get_hash` feeds only `coords.0 + coords.1 + world_seed` to
the hasher, so any two chunk coordinates with equal component sums collide
for every world seed: their chunks seed their RNGs identically. -/
theorem C8_hash_sum_collision (H : Int → Nat) (seed : Nat) (c1 c2 : Int × Int)
    (h : c1.1 + c1.2 = c2.1 + c2.2) :
    get_hash H seed c1 = get_hash H seed c2 := by
  unfold get_hash
  rw [h]

/-- **C8 witness.**  Concrete colliding coordinates `(1, 2)` and `(3, 0)`. -/
theorem C8_hash_sum_collision_witness :
    ((1 : Int) + (2 : Int) = (3 : Int) + (0 : Int)) ∧
    get_hash Int.toNat 42 (1, 2) = get_hash Int.toNat 42 (3, 0) :=
  ⟨by decide, C8_hash_sum_collision Int.toNat 42 (1, 2) (3, 0) (by decide)⟩

/-- **C9.**  One propagation pass never adds an element to any cell's
domain: after `update_constraint_map` (of the interior generator, and of
the stitcher) every cell's domain is a subset of its domain before the
pass. -/
theorem C9_domain_monotone :
    (∀ (s : SchematicAsset) (tiles : TGrid) (cmap : CGrid) (x y : Nat),
      get2 (updateConstraintMap s tiles cmap) x y [] ⊆ get2 cmap x y []) ∧
    (∀ (s : SchematicAsset) (coords : Int × Int) (chunk : List TTile)
      (adj : Adjacencies) (tiles : List (Option Nat)) (cmap : List (List Nat)) (idx : Nat),
      (ringUpdate s coords chunk adj tiles cmap).getD idx [] ⊆ cmap.getD idx []) :=
  ⟨ucm_subset, ringUpdate_subset⟩

/-- **C10.**  Both collapse loops terminate: every iteration that selects
a cell clears that cell's (nonempty) domain in the following constraint
update, so the number of nonempty domains strictly decreases, and running
the interior loop with `L*L` collapse iterations (respectively `4L + 4`
for the stitcher ring) reaches the state where `lowest_entropy` is `None`
— any larger fuel gives the same result. -/
theorem C10_termination (s : SchematicAsset) (dom0 keys : List Nat) (draw : Nat → Nat)
    (coords : Int × Int) (chunk : List TTile) (adj : Adjacencies) (dom0R : List Nat)
    (drawE : Nat → Nat) (h : 0 < s.tiles.length) :
    (∀ n, CHUNK_TILE_LENGTH * CHUNK_TILE_LENGTH + 1 ≤ n →
      wfcLoop s draw n (wfcInit dom0 keys draw) =
        wfcLoop s draw (CHUNK_TILE_LENGTH * CHUNK_TILE_LENGTH + 1)
          (wfcInit dom0 keys draw)) ∧
    (∀ n, 4 * CHUNK_TILE_LENGTH + 4 + 1 ≤ n →
      stitchLoop s coords chunk adj drawE n (stitchInit dom0R adj) =
        stitchLoop s coords chunk adj drawE (4 * CHUNK_TILE_LENGTH + 4 + 1)
          (stitchInit dom0R adj)) := by
  constructor
  · intro n hn
    exact wfcLoop_stable s draw _ (wfg_set2 _ _ _ _ (wfg_replicate _ (by simp))) n hn
  · intro n hn
    refine stitchLoop_stable s coords chunk adj drawE _ ⟨?_, ?_⟩ n hn
    · simp [stitchInit, initStitchingConstraints]
    · simp [stitchInit]

/-- **C10 witness.**  Termination applied to a concrete one-tile run with
fuel 70 (interior) and 40 (stitcher). -/
theorem C10_termination_witness :
    0 < oneTile.tiles.length ∧
    wfcLoop oneTile drawZero 70 (wfcInit [0] [0] drawZero) =
      wfcLoop oneTile drawZero (CHUNK_TILE_LENGTH * CHUNK_TILE_LENGTH + 1)
        (wfcInit [0] [0] drawZero) ∧
    stitchLoop oneTile (0, 0) [] adjNone drawZero 40 (stitchInit [0] adjNone) =
      stitchLoop oneTile (0, 0) [] adjNone drawZero (4 * CHUNK_TILE_LENGTH + 4 + 1)
        (stitchInit [0] adjNone) :=
  ⟨by decide,
   (C10_termination oneTile [0] [0] drawZero (0, 0) [] adjNone [0] drawZero
     (by decide)).1 70 (by decide),
   (C10_termination oneTile [0] [0] drawZero (0, 0) [] adjNone [0] drawZero
     (by decide)).2 40 (by decide)⟩

/-- **C4 (amended).**  The stitching pass of `gen_chunk_stitches` removes
the `Dirty` marker from every dirty chunk it processes, unconditionally —
whether or not any neighbor exists — and spawns one identifier for each of
the `4L + 4` ring positions (the fallback for unresolved cells); a chunk
with missing neighbors is not retried.  The claim's original form ("the
chunk remains dirty when a side lacks a neighbor") fails
(`C4_counterexample`). -/
theorem C4_dirty_cleared_amended (s : SchematicAsset) (coords : Int × Int)
    (chunk : List TTile) (adj : Adjacencies) (dom0 : List Nat) (drawE : Nat → Nat) :
    (genChunkStitchesChunk s coords chunk adj dom0 drawE).2 = false ∧
    (genChunkStitchesChunk s coords chunk adj dom0 drawE).1.length =
      4 * CHUNK_TILE_LENGTH + 4 := by
  constructor
  · rfl
  · simp [genChunkStitchesChunk]

set_option maxRecDepth 100000 in
/-- **C1 counterexample.**  With the asymmetric schematic `twoTilesAsym`
(tile 0 allows only 1 to its north, tile 1 allows only 1 to its south),
a concrete run of `collapse` produces tile 0 at `(0, 0)` and tile 1 at
`(0, 1)`: the claim's southward check — the southward cell's identifier
must be in the northward cell's south allow-list — fails, since
`0 ∉ (lookup 1).south`.  The algorithm only enforces the direction from
the earlier-collapsed cell. -/
theorem C1_counterexample :
    get2 (wfcCollapse twoTilesAsym [0, 1] [0, 1] drawZero) 0 0 none = some (0, 1) ∧
    get2 (wfcCollapse twoTilesAsym [0, 1] [0, 1] drawZero) 0 1 none = some (1, 1) ∧
    ¬ (0 ∈ (lookupTile twoTilesAsym 1).south) := by
  decide

set_option maxRecDepth 100000 in
/-- **C2 (refuted).**  Two runs of `init` + `collapse` with the same seed,
coordinates and schematic — hence the same re-seeded RNG draws — but
different `HashSet`/`HashMap` iteration orders (`[0, 1]` versus `[1, 0]`,
as happens across independent processes, whose `RandomState`s differ)
produce different interior grids: every drawn tile is taken *by index*
from the hash container's iteration order. -/
theorem C2_nondeterminism :
    wfcCollapse twoTilesFree [0, 1] [0, 1] drawZero ≠
      wfcCollapse twoTilesFree [1, 0] [1, 0] drawZero := by
  decide

/-- **C3 (refuted).**  `get_chunks_in_range` at the origin: the returned
vector has 31 entries, not `(2R+1)² = 25`, and contains the default
coordinate `(0, 0)` six times — the source pre-fills the vector with
`(2 * RENDER_DISTANCE) ^ 2` default entries, and `^` is XOR in Rust
(`4 XOR 2 = 6`), then pushes the 25 real coordinates. -/
theorem C3_visible_set_eval :
    (get_chunks_in_range (0, 0)).length = 31 ∧
    (get_chunks_in_range (0, 0)).count (0, 0) = 6 ∧
    (2 * RENDER_DISTANCE + 1) * (2 * RENDER_DISTANCE + 1) = 25 := by
  decide

/-- **C4 counterexample.**  A dirty chunk with no neighbors at all goes
through the stitching pass and still has its dirty flag removed
(`remove::<Dirty>()` is unconditional), contradicting the claim that a
chunk with a missing neighbor remains dirty and is retried. -/
theorem C4_counterexample :
    adjNone.north = none ∧
    (genChunkStitchesChunk oneTile (0, 0) [] adjNone [0] drawZero).2 = false := by
  decide

set_option maxRecDepth 10000 in
/-- **C5 (refuted).**  A stitcher for the chunk at `(0, 0)` whose east
neighbor exists (with no tiles) and whose own chunk holds one collapsed
interior tile of id 0 at relative translation `(112, 112)` — the interior
cell `(7, 7)`, which borders the east-side non-corner ring position 10
(side 1, rank 1) — runs one `update_constraint_map` pass.  Tile 0 allows
*nothing* to its east, yet ring cell 10's domain stays the full `[0, 1]`:
the own-interior restriction never applies, because the code compares the
chunk tiles' relative translations against absolute perimeter world
coordinates (and uses the `south` allow-list on every side besides). -/
theorem C5_interior_edge_eval :
    adjEastOnly.east.isSome = true ∧
    (10 / (CHUNK_TILE_LENGTH + 1) = 1 ∧ 10 % (CHUNK_TILE_LENGTH + 1) = 1) ∧
    (lookupTile twoTilesNoEast 0).east = [] ∧
    (ringUpdate twoTilesNoEast (0, 0) [(0, (112, 112))] adjEastOnly
      (stitchInit [0, 1] adjEastOnly).tiles (stitchInit [0, 1] adjEastOnly).cmap).getD
        10 [] = [0, 1] := by
  decide

set_option maxRecDepth 10000 in
/-- **C6 counterexample.**  In the very first iteration of `collapse` the
constraint map has not yet been updated after the origin was force-seeded:
`lowest_entropy` selects `(0, 0)`, a cell that is already collapsed
(`Some`), contradicting the claim that the chosen cell is always
uncollapsed. -/
theorem C6_counterexample :
    lowestEntropy (wfcInit [0] [0] drawZero).cmap = some (0, 0) ∧
    (get2 (wfcInit [0] [0] drawZero).tiles 0 0 none).isSome = true := by
  decide

end Travelers
